import Mathlib

/-!
# Verification of the GCS weapon resolution engine

A shallow embedding of the weapon stat resolver, bonus aggregation engine and
attribute prerequisite evaluation of `model/gurps/weapon.go`,
`model/gurps/weapon_accuracy.go` and `model/gurps/attribute_prereq.go`.

Go strings are modelled as `List Char`; the fixed-point numeric type `fxp.Int`
(a 64-bit integer scaled by 10000) is modelled as `Int` carrying the scaled
value, with the Go sentinels `fxp.Min`/`fxp.Max` as explicit constants.  The
mutable parts of the object graph that the aggregation pass writes to (the
`LeveledAmount.Level` field and the sub-owner back reference of each weapon
bonus) are modelled as explicit stores indexed by a bonus identity, threaded
through every function in state-passing style; all other fields are immutable
during resolution and live in a static context.
-/

namespace Gurps

/-! ## Fixed point arithmetic (`model/fxp`) -/

/-- The scaling factor of `fxp.Int`: four decimal places. -/
def fxpDP : Int := 10000

/-- `fxp.From`: embed an integer as a fixed-point value. -/
def fxpFrom (n : Int) : Int := n * fxpDP

/-- `fxp.Min`, the smallest `fxp.Int`, used as the not-applicable sentinel. -/
def fxpMin : Int := -9223372036854775808

/-- `fxp.Max`, the largest `fxp.Int`, used as the not-yet-computed sentinel. -/
def fxpMaxC : Int := 9223372036854775807

/-- `fxp.Int.Mul`: fixed-point multiplication, truncating toward zero as Go
integer division does. -/
def fxpMul (a b : Int) : Int := Int.tdiv (a * b) fxpDP

/-- `fxp.Int.Div`: fixed-point division, truncating toward zero. -/
def fxpDiv (a b : Int) : Int := Int.tdiv (a * fxpDP) b

/-- `fxp.Int.Trunc`: drop the fractional part, toward zero. -/
def fxpTrunc (a : Int) : Int := Int.tdiv a fxpDP * fxpDP

/-! ## Characters and strings -/

/-- ASCII decimal digit test, as the Go code's `ch >= '0' && ch <= '9'`. -/
def isDigitCh (c : Char) : Bool := '0' ≤ c && c ≤ '9'

/-- Value of a run of decimal digits, most significant first, as accumulated
by the Go scanning loops (`value = value*10 + (ch - '0')`). -/
def digitsToNat (ds : List Char) : Nat :=
  ds.foldl (fun a c => a * 10 + (c.toNat - '0'.toNat)) 0

/-- Decimal digits of a natural number, with explicit recursion fuel (the
value itself bounds the number of divisions by ten). -/
def natToDigitsAux : Nat → Nat → List Char
  | 0, _ => []
  | fuel + 1, n =>
    if n < 10 then [Char.ofNat ('0'.toNat + n)]
    else natToDigitsAux fuel (n / 10) ++ [Char.ofNat ('0'.toNat + n % 10)]

/-- Decimal digits of a natural number, as produced by Go's integer
formatting. -/
def natToDigits (n : Nat) : List Char := natToDigitsAux (n + 1) n

/-- Decimal rendering of an integer. -/
def intToString (n : Int) : List Char :=
  if n < 0 then '-' :: natToDigits (-n).toNat else natToDigits n.toNat

/-- `fxp.Int.String` restricted to whole values (every call site first applies
`Trunc`): renders the unscaled integer. -/
def fxpIntString (v : Int) : List Char := intToString (Int.tdiv v fxpDP)

/-! ## Criteria (`Modelled from the spec:` the `StringCriteria` and
`NumericCriteria` comparison primitives of component 4.1 are not part of the
provided sources; they are modelled from the spec's operator lists, with
case-insensitive string comparison.) -/

/-- String comparison operators, from spec 4.1. -/
inductive StringCompareType where
  | anyString
  | isString
  | isNotString
  | containsString
  | doesNotContainString
  | startsWithString
  | endsWithString
deriving DecidableEq

/-- Lower-case both sides, for the spec's case-insensitive comparison. -/
def lowerList (s : List Char) : List Char := s.map Char.toLower

/-- Substring test used by the contains operators. -/
def isSubstring (p s : List Char) : Bool :=
  match s with
  | [] => p = []
  | _ :: rest => p.isPrefixOf s || isSubstring p rest

/-- Modelled from the spec: string matching criteria (operator plus
qualifier), case-insensitive. -/
structure StringCriteria where
  compare : StringCompareType
  qualifier : List Char
deriving DecidableEq

/-- Modelled from the spec: `StringCriteria.Matches`. -/
def StringCriteria.matches (c : StringCriteria) (s : List Char) : Bool :=
  match c.compare with
  | .anyString => true
  | .isString => lowerList s = lowerList c.qualifier
  | .isNotString => lowerList s ≠ lowerList c.qualifier
  | .containsString => isSubstring (lowerList c.qualifier) (lowerList s)
  | .doesNotContainString => !isSubstring (lowerList c.qualifier) (lowerList s)
  | .startsWithString => (lowerList c.qualifier).isPrefixOf (lowerList s)
  | .endsWithString => (lowerList c.qualifier).isSuffixOf (lowerList s)

/-- Modelled from the spec: `StringCriteria.MatchesList` — negative operators
must match every element, positive ones some element; an empty list is
treated as the single empty string. -/
def StringCriteria.matchesList (c : StringCriteria) (l : List (List Char)) : Bool :=
  match c.compare with
  | .anyString => true
  | .isNotString | .doesNotContainString =>
    (if l = [] then [([] : List Char)] else l).all fun s => c.matches s
  | _ =>
    (if l = [] then [([] : List Char)] else l).any fun s => c.matches s

/-- Numeric comparison operators, from spec 4.1. -/
inductive NumericCompareType where
  | anyNumber
  | equalsNumber
  | notEqualsNumber
  | atLeastNumber
  | atMostNumber
deriving DecidableEq

/-- Modelled from the spec: numeric criteria (operator plus qualifier). -/
structure NumericCriteria where
  compare : NumericCompareType
  qualifier : Int
deriving DecidableEq

/-- Modelled from the spec: `NumericCriteria.Matches`. -/
def NumericCriteria.matches (c : NumericCriteria) (v : Int) : Bool :=
  match c.compare with
  | .anyNumber => true
  | .equalsNumber => v = c.qualifier
  | .notEqualsNumber => v ≠ c.qualifier
  | .atLeastNumber => c.qualifier ≤ v
  | .atMostNumber => v ≤ c.qualifier

/-- Modelled from the spec: the descriptive text `NumericCriteria.String`
appended to prerequisite tooltips. -/
def NumericCriteria.describe (c : NumericCriteria) : List Char :=
  match c.compare with
  | .anyNumber => "is anything".toList
  | .equalsNumber => "is ".toList ++ fxpIntString c.qualifier
  | .notEqualsNumber => "is not ".toList ++ fxpIntString c.qualifier
  | .atLeastNumber => "is at least ".toList ++ fxpIntString c.qualifier
  | .atMostNumber => "is at most ".toList ++ fxpIntString c.qualifier

/-! ## Enumerations

Go enumerations are open integer types: values outside the declared range are
representable (e.g. after deserialization), so each embedded enumeration that
the code switches on without `EnsureValid` carries an explicit invalid
constructor. -/

/-- `EntityType`: only PC entities drive weapon resolution. -/
inductive EntityType where
  | pc
  | otherEntity
deriving DecidableEq

/-- `WeaponType` (`MeleeWeaponType`, `RangedWeaponType`, out of range). -/
inductive WeaponType where
  | melee
  | ranged
  | invalidWeaponType
deriving DecidableEq

/-- `WeaponType.EnsureValid`: out-of-range values map to the first constant,
`MeleeWeaponType`. -/
def WeaponType.EnsureValid : WeaponType → WeaponType
  | .melee => .melee
  | .ranged => .ranged
  | .invalidWeaponType => .melee

/-- `FeatureType`, restricted to the kinds the weapon code distinguishes. -/
inductive FeatureType where
  | weaponBonus
  | weaponAccBonus
  | weaponScopeAccBonus
  | weaponMinSTBonus
  | skillBonusType
  | otherFeatureType
deriving DecidableEq

/-- `WeaponSelectionType`, plus an out-of-range value (the `default` arm of
the Go switch in `extractWeaponBonus`). -/
inductive WeaponSelectionType where
  | withRequiredSkill
  | thisWeapon
  | withName
  | invalidSelection
deriving DecidableEq

/-- `SkillSelectionType` values relevant to weapons. -/
inductive SkillSelectionType where
  | skillsWithName
  | thisWeaponSkill
  | weaponsWithName
deriving DecidableEq

/-- The kind of item owning a weapon (`*Trait`, `*Equipment`, other). -/
inductive OwnerKind where
  | traitOwner
  | equipmentOwner
  | otherOwner
deriving DecidableEq

/-! ## Bonus objects -/

/-- The static fields of a `WeaponBonus` (its `LeveledAmount` base amount and
per-level flag, selection data and criteria).  The mutable `Level` and
sub-owner fields live in the aggregation state, keyed by a bonus identity
(`Nat`), which models Go pointer identity. -/
structure WeaponBonus where
  ftype : FeatureType
  selectionType : WeaponSelectionType
  nameCriteria : StringCriteria
  specializationCriteria : StringCriteria
  tagsCriteria : StringCriteria
  baseAmount : Int
  perLevel : Bool
  derivedLevel : Int

/-- `LeveledAmount.AdjustedAmount` for a weapon bonus at a given level: base
times level when per-level, else the base (spec 4.1). -/
def WeaponBonus.adjustedAmount (b : WeaponBonus) (level : Int) : Int :=
  if b.perLevel then fxpMul b.baseAmount level else b.baseAmount

/-- A `SkillBonus` feature, as consulted by
`extractSkillBonusForThisWeapon`; its resolved amount is carried directly. -/
structure SkillBonus where
  selectionType : SkillSelectionType
  nameCriteria : StringCriteria
  specializationCriteria : StringCriteria
  tagsCriteria : StringCriteria
  adjustedAmount : Int

/-- A `Feature` in an owner's or modifier's feature list.  Every feature
that implements Go's `Bonus` interface (weapon bonuses, skill bonuses, and
the other bonus kinds) carries an identity (`Nat`, modelling pointer
identity), because the engine mutates such features in place: weapon bonuses
through their transient level, and every bonus through its sub-owner back
reference.  Features that do not implement `Bonus` (e.g. cost reductions)
carry no identity. -/
inductive Feature where
  | weaponBonusRef (id : Nat)
  | skillBonusFeature (id : Nat) (sb : SkillBonus)
  | otherBonusFeature (id : Nat) (ft : FeatureType)
  | otherFeature (ft : FeatureType)

/-- `Feature.FeatureType`. -/
def Feature.featureType (ctx : Nat → WeaponBonus) : Feature → FeatureType
  | .weaponBonusRef id => (ctx id).ftype
  | .skillBonusFeature _ _ => .skillBonusType
  | .otherBonusFeature _ ft => ft
  | .otherFeature ft => ft

/-- The identity of a feature when it implements Go's `Bonus` interface
(the successful `f.(Bonus)` cast of `collectWeaponBonuses`), and nothing
otherwise. -/
def Feature.bonusId : Feature → Option Nat
  | .weaponBonusRef id => some id
  | .skillBonusFeature id _ => some id
  | .otherBonusFeature id _ => some id
  | .otherFeature _ => none

/-- A trait or equipment modifier: a feature list plus nested children, as
walked by `Traverse`. -/
inductive Modifier where
  | mk (mid : Nat) (features : List Feature) (children : List Modifier)

/-- The identity of a modifier. -/
def Modifier.mid : Modifier → Nat
  | .mk i _ _ => i

/-- The feature list of a modifier. -/
def Modifier.features : Modifier → List Feature
  | .mk _ f _ => f

/-- The nested children of a modifier. -/
def Modifier.children : Modifier → List Modifier
  | .mk _ _ c => c

mutual

/-- The preorder visit sequence of `Traverse` at one modifier: the node,
then its children. -/
def flattenMod : Modifier → List Modifier
  | .mk i f c => .mk i f c :: flattenMods c

/-- The preorder visit sequence of `Traverse` over a modifier forest:
each node, then its children, then its siblings. -/
def flattenMods : List Modifier → List Modifier
  | [] => []
  | m :: rest => flattenMod m ++ flattenMods rest

end

/-! ## Entity, skill defaults, owner, weapon -/

/-- A `SkillDefault` of a weapon.  `level` carries the result of
`SkillLevelFast(pc, false, nil, true)` against the entity in scope
(`fxpMin` when the default cannot be resolved), and `skillBased` the result
of `SkillBased()`; those methods live outside the provided sources. -/
structure SkillDefault where
  dtype : List Char
  name : List Char
  specialization : List Char
  skillBased : Bool
  level : Int

/-- The entity accessor surface consumed by the weapon resolver (spec 6).
The bonus source enumerations (`NamedWeaponSkillBonusesFor`,
`AddWeaponWithSkillBonusesFor`, `AddNamedWeaponBonusesFor`) are not part of
the provided sources and are modelled from the spec as criteria-filtered
lists attached to the entity. -/
structure Entity where
  etype : EntityType
  strikingStrength : Int
  throwingStrength : Int
  encumbrancePenaltyValue : Int
  parryBonus : Int
  blockBonus : Int
  namedWeaponSkillBonuses : List SkillBonus
  skillKeyedWeaponBonusIds : List Nat
  namedWeaponBonusIds : List Nat
  resolveAttributeCurrent : List Char → Int
  resolveAttributeName : List Char → List Char

/-- The `WeaponOwner` interface surface. -/
structure WeaponOwner where
  owningEntity : Option Entity
  description : List Char
  ratedStrength : Int
  featureList : List Feature
  tagList : List (List Char)
  kind : OwnerKind
  modifiers : List Modifier

/-- The weapon fields involved in resolution (`WeaponData` plus `Owner`). -/
structure Weapon where
  wtype : WeaponType
  jet : Bool
  usage : List Char
  reach : List Char
  parry : List Char
  block : List Char
  range : List Char
  weaponAcc : Int
  scopeAcc : Int
  minST : Int
  defaults : List SkillDefault
  owner : Option WeaponOwner

/-- The static context: the object graph's weapon bonuses by identity. -/
structure Ctx where
  bonuses : Nat → WeaponBonus

/-- `Weapon.String()`: the owner's description, or empty without an owner. -/
def Weapon.string (w : Weapon) : List Char :=
  match w.owner with
  | none => []
  | some o => o.description

/-- `Weapon.Entity()`. -/
def Weapon.entity (w : Weapon) : Option Entity :=
  match w.owner with
  | none => none
  | some o => o.owningEntity

/-- `Weapon.PC()`: the owning entity when it is of PC type. -/
def Weapon.PC (w : Weapon) : Option Entity :=
  match w.entity with
  | some e => if e.etype = .pc then some e else none
  | none => none

/-- The owner's tag list (callers guarantee an owner is present). -/
def Weapon.ownerTags (w : Weapon) : List (List Char) :=
  match w.owner with
  | none => []
  | some o => o.tagList

/-- The owner's feature list. -/
def Weapon.ownerFeatures (w : Weapon) : List Feature :=
  match w.owner with
  | none => []
  | some o => o.featureList

/-- The owner's modifiers when the owner is a trait or a piece of equipment
(the two type switches in `collectWeaponBonuses` and
`skillLevelBaseAdjustment`); otherwise nothing is traversed. -/
def Weapon.ownerTraitOrEquipmentModifiers (w : Weapon) : List Modifier :=
  match w.owner with
  | none => []
  | some o =>
    match o.kind with
    | .traitOwner => o.modifiers
    | .equipmentOwner => o.modifiers
    | .otherOwner => []

/-! ## Bonus aggregation engine (`collectWeaponBonuses`, `extractWeaponBonus`)

The state threaded through the traversal: the mutable per-bonus `Level`
fields and sub-owner back references, the `bonusSet` in insertion order, the
caller's tooltip buffer (one entry per contributing bonus, recording the
bonus identity and the amount rendered at the transient level), and a count
of diagnostics logged via `errs.Log`. -/

structure AggState where
  levels : Nat → Int
  subOwners : Nat → Option Nat
  set : List Nat
  tooltip : List (Nat × Int)
  log : Nat

/-- Write the transient `LeveledAmount.Level` of one bonus. -/
def setLevel (s : AggState) (id : Nat) (v : Int) : AggState :=
  { s with levels := fun j => if j = id then v else s.levels j }

/-- The adjusted amount of a bonus at its current level in the store. -/
def adjustedAmountAt (ctx : Ctx) (id : Nat) (levels : Nat → Int) : Int :=
  (ctx.bonuses id).adjustedAmount (levels id)

/-- The deduplicating insertion of `extractWeaponBonus`: a bonus already in
the set is skipped, a new one is recorded and appends its tooltip line. -/
def addBonusToSet (ctx : Ctx) (id : Nat) (s : AggState) : AggState :=
  if s.set.contains id then s
  else { s with set := s.set ++ [id],
                tooltip := s.tooltip ++ [(id, adjustedAmountAt ctx id s.levels)] }

/-- The selection-type switch of `Weapon.extractWeaponBonus`: a
with-required-skill selection is silently skipped, the this-weapon and
with-name selections insert on a criteria match, and an out-of-range
selection value is logged (`errs.Log`) and skipped. -/
def extractSelect (ctx : Ctx) (w : Weapon) (id : Nat) (s1 : AggState) : AggState :=
  match (ctx.bonuses id).selectionType with
  | .withRequiredSkill => s1
  | .thisWeapon =>
    if (ctx.bonuses id).specializationCriteria.matches w.usage then addBonusToSet ctx id s1
    else s1
  | .withName =>
    if (ctx.bonuses id).nameCriteria.matches w.string
        && (ctx.bonuses id).specializationCriteria.matches w.usage
        && (ctx.bonuses id).tagsCriteria.matchesList w.ownerTags then
      addBonusToSet ctx id s1
    else s1
  | .invalidSelection => { s1 with log := s1.log + 1 }

/-- `Weapon.extractWeaponBonus`: gate on the allowed feature types, set the
transient level (the die count for damage bonuses, the derived level
otherwise), dispatch on the selection type, and restore the level. -/
def extractWeaponBonus (ctx : Ctx) (w : Weapon) (f : Feature) (dieCount : Int)
    (allowed : List FeatureType) (s : AggState) : AggState :=
  match f with
  | .weaponBonusRef id =>
    let b := ctx.bonuses id
    if allowed.contains b.ftype then
      let transient := if b.ftype = FeatureType.weaponBonus then dieCount else b.derivedLevel
      setLevel (extractSelect ctx w id (setLevel s id transient)) id (s.levels id)
    else s
  | _ => s

/-- Modelled from the spec: `Entity.AddWeaponWithSkillBonusesFor` and
`Entity.AddNamedWeaponBonusesFor` are not part of the provided sources; per
spec 4.4 they collect the entity's weapon bonuses whose criteria match the
given name, usage/specialization and tag set, into the same deduplicating
set with the same transient level handling. -/
def addWeaponBonusesFromList (ctx : Ctx) (ids : List Nat) (nameQ specQ : List Char)
    (tags : List (List Char)) (dieCount : Int) (allowed : List FeatureType)
    (s : AggState) : AggState :=
  ids.foldl (fun s id =>
    let b := ctx.bonuses id
    if allowed.contains b.ftype && b.nameCriteria.matches nameQ
        && b.specializationCriteria.matches specQ && b.tagsCriteria.matchesList tags then
      let saved := s.levels id
      let transient := if b.ftype = FeatureType.weaponBonus then dieCount else b.derivedLevel
      setLevel (addBonusToSet ctx id (setLevel s id transient)) id saved
    else s) s

/-- One modifier visit inside `collectWeaponBonuses`: every feature that
implements the `Bonus` interface — weapon bonuses, skill bonuses, and the
other bonus kinds alike — first gets its sub-owner back reference pointed at
the modifier (`SetSubOwner`, not reverted), then the feature is extracted. -/
def modStep (ctx : Ctx) (w : Weapon) (dieCount : Int) (allowed : List FeatureType)
    (s : AggState) (m : Modifier) : AggState :=
  m.features.foldl (fun acc f =>
    let acc' :=
      match f.bonusId with
      | some id =>
        { acc with subOwners := fun j => if j = id then some m.mid else acc.subOwners j }
      | none => acc
    extractWeaponBonus ctx w f dieCount allowed acc') s

/-- The best-of pass over the weapon's skill-based defaults: the first
default attaining the strictly highest fast skill level. -/
def pickBestDefault (defaults : List SkillDefault) : Option SkillDefault :=
  (defaults.foldl (fun (acc : Int × Option SkillDefault) d =>
    if d.skillBased && acc.1 < d.level then (d.level, some d) else acc)
    (fxpMin, none)).2

/-- `Weapon.collectWeaponBonuses`: nothing without a PC; otherwise collect
skill-keyed bonuses for the best default, named-weapon bonuses, the owner's
direct features, and the features of every trait/equipment modifier (callers
pass a state whose set component is empty; the result set is read back from
the returned state). -/
def collectWeaponBonuses (ctx : Ctx) (w : Weapon) (dieCountN : Int)
    (allowed : List FeatureType) (s : AggState) : AggState :=
  match w.PC with
  | none => s
  | some pc =>
    let dieCount := fxpFrom dieCountN
    let tags := w.ownerTags
    let s1 :=
      match pickBestDefault w.defaults with
      | some d =>
        addWeaponBonusesFromList ctx pc.skillKeyedWeaponBonusIds d.name d.specialization
          tags dieCount allowed s
      | none => s
    let s2 := addWeaponBonusesFromList ctx pc.namedWeaponBonusIds w.string w.usage
      tags dieCount allowed s1
    let s3 := w.ownerFeatures.foldl
      (fun acc f => extractWeaponBonus ctx w f dieCount allowed acc) s2
    (flattenMods w.ownerTraitOrEquipmentModifiers).foldl
      (modStep ctx w dieCount allowed) s3

/-- Reset the set component before a `collectWeaponBonuses` call, as the Go
code allocates a fresh `bonusSet` map per call. -/
def freshSet (s : AggState) : AggState := { s with set := [] }

/-! ## Weapon stat resolver -/

/-- The `gid.SkillID` identifier constant. -/
def skillID : List Char := "skill".toList

/-- The `gid.ParryID` identifier constant. -/
def parryID : List Char := "parry".toList

/-- The `gid.BlockID` identifier constant. -/
def blockID : List Char := "block".toList

/-- The hard-coded skill name of the parry/block special case. -/
def karateName : List Char := "Karate".toList

/-- `Weapon.ResolvedMinimumStrength`: a positive owner rated strength wins
outright; otherwise the stored minimum ST plus collected minimum-ST bonuses,
floored at zero. -/
def Weapon.ResolvedMinimumStrength (ctx : Ctx) (w : Weapon) (s : AggState) :
    Int × AggState :=
  let rated :=
    match w.owner with
    | some o => max o.ratedStrength 0
    | none => 0
  if rated ≠ 0 then (rated, s)
  else
    let s' := collectWeaponBonuses ctx w 1 [FeatureType.weaponMinSTBonus] (freshSet s)
    let total := s'.set.foldl (fun acc id => acc + adjustedAmountAt ctx id s'.levels) w.minST
    (max total 0, s')

/-- `Weapon.ResolvedAccuracy`: zero for jets; the stored values unchanged
without a PC; otherwise the stored values plus matching bonuses, each floored
at zero. -/
def Weapon.ResolvedAccuracy (ctx : Ctx) (w : Weapon) (s : AggState) :
    (Int × Int) × AggState :=
  if w.jet then ((0, 0), s)
  else
    match w.PC with
    | none => ((w.weaponAcc, w.scopeAcc), s)
    | some _ =>
      let s' := collectWeaponBonuses ctx w 1
        [FeatureType.weaponAccBonus, FeatureType.weaponScopeAccBonus] (freshSet s)
      let wa := s'.set.foldl (fun acc id =>
        if (ctx.bonuses id).ftype = FeatureType.weaponAccBonus then
          acc + adjustedAmountAt ctx id s'.levels
        else acc) w.weaponAcc
      let sa := s'.set.foldl (fun acc id =>
        if (ctx.bonuses id).ftype = FeatureType.weaponScopeAccBonus then
          acc + adjustedAmountAt ctx id s'.levels
        else acc) w.scopeAcc
      ((max wa 0, max sa 0), s')

/-- The `WeaponAccuracy` value pair of `weapon_accuracy.go`. -/
structure WeaponAccuracy where
  base : Int
  scope : Int
deriving DecidableEq

/-- `WeaponAccuracy.Validate`: clamp both components to the non-negative
floor. -/
def WeaponAccuracy.Validate (wa : WeaponAccuracy) : WeaponAccuracy :=
  ⟨max wa.base 0, max wa.scope 0⟩

/-- Modelled from the spec: `Weapon.ResolveBoolFlag` (the switch-replacement
mechanism) is not part of the provided sources; with no replacements in
scope it resolves to the stored flag. -/
def Weapon.ResolveBoolFlag (_w : Weapon) (flag : Bool) : Bool := flag

/-- `WeaponAccuracy.Resolve`: zero for jets; otherwise the stored values,
plus matching bonuses when a PC exists, validated (clamped) before being
returned. -/
def WeaponAccuracy.Resolve (wa : WeaponAccuracy) (ctx : Ctx) (w : Weapon)
    (s : AggState) : WeaponAccuracy × AggState :=
  if w.ResolveBoolFlag w.jet then (⟨0, 0⟩, s)
  else
    let (result, s') :=
      match w.PC with
      | none => (wa, s)
      | some _ =>
        let s' := collectWeaponBonuses ctx w 1
          [FeatureType.weaponAccBonus, FeatureType.weaponScopeAccBonus] (freshSet s)
        let base := s'.set.foldl (fun acc id =>
          if (ctx.bonuses id).ftype = FeatureType.weaponAccBonus then
            acc + adjustedAmountAt ctx id s'.levels
          else acc) wa.base
        let scope := s'.set.foldl (fun acc id =>
          if (ctx.bonuses id).ftype = FeatureType.weaponScopeAccBonus then
            acc + adjustedAmountAt ctx id s'.levels
          else acc) wa.scope
        (⟨base, scope⟩, s')
    (result.Validate, s')

/-- `Weapon.EncumbrancePenalty` (tooltip writes elided; they never feed the
numeric result). -/
def encumbrancePenalty (e : Entity) : Int := e.encumbrancePenaltyValue

/-- `Weapon.extractSkillBonusForThisWeapon`: a skill bonus with the
this-weapon selection whose specialization criteria match the usage. -/
def extractSkillBonusForThisWeapon (w : Weapon) (f : Feature) : Int :=
  match f with
  | .skillBonusFeature _ sb =>
    if sb.selectionType = SkillSelectionType.thisWeaponSkill
        && sb.specializationCriteria.matches w.usage then
      sb.adjustedAmount
    else 0
  | _ => 0

/-- Modelled from the spec: `Entity.NamedWeaponSkillBonusesFor` is not part
of the provided sources; per spec 4.4 it yields the entity's named-weapon
skill bonuses whose criteria match the weapon's display name, usage and tag
set. -/
def namedWeaponSkillBonusesFor (e : Entity) (nameQ usageQ : List Char)
    (tags : List (List Char)) : List SkillBonus :=
  e.namedWeaponSkillBonuses.filter fun sb =>
    sb.selectionType = SkillSelectionType.weaponsWithName
      && sb.nameCriteria.matches nameQ
      && sb.specializationCriteria.matches usageQ
      && sb.tagsCriteria.matchesList tags

/-- `Weapon.skillLevelBaseAdjustment`: the minimum-ST shortfall penalty, the
named-weapon skill bonuses, the this-weapon skill bonuses on the owner's
features, and those on every trait/equipment modifier. -/
def skillLevelBaseAdjustment (ctx : Ctx) (w : Weapon) (pc : Entity) (s : AggState) :
    Int × AggState :=
  let (rms, s1) := w.ResolvedMinimumStrength ctx s
  let shortfall := rms - pc.strikingStrength
  let a0 : Int := if 0 < shortfall then -shortfall else 0
  let a1 := a0 + (namedWeaponSkillBonusesFor pc w.string w.usage w.ownerTags).foldl
    (fun acc sb => acc + sb.adjustedAmount) 0
  let a2 := a1 + w.ownerFeatures.foldl
    (fun acc f => acc + extractSkillBonusForThisWeapon w f) 0
  let a3 := a2 + (flattenMods w.ownerTraitOrEquipmentModifiers).foldl
    (fun acc m => acc + m.features.foldl
      (fun a f => a + extractSkillBonusForThisWeapon w f) 0) 0
  (a3, s1)

/-- `Weapon.skillLevelPostAdjustment`: the encumbrance penalty for melee
weapons with a fencing parry (a parry string containing `F`). -/
def skillLevelPostAdjustment (w : Weapon) (pc : Entity) : Int :=
  if w.wtype.EnsureValid = WeaponType.melee && w.parry.contains 'F' then
    encumbrancePenalty pc
  else 0

/-- `Weapon.SkillLevel`: zero without a PC; otherwise the highest adjusted
level over the applicable defaults, floored at zero. -/
def Weapon.SkillLevel (ctx : Ctx) (w : Weapon) (s : AggState) : Int × AggState :=
  match w.PC with
  | none => (0, s)
  | some pc =>
    let (ba, s1) := skillLevelBaseAdjustment ctx w pc s
    let adj := ba + skillLevelPostAdjustment w pc
    let best := w.defaults.foldl (fun acc d =>
      if d.level ≠ fxpMin then (if acc < d.level + adj then d.level + adj else acc)
      else acc) fxpMin
    if best = fxpMin then (0, s1) else (max best 0, s1)

/-! ## Parry/block string resolution (`resolvedValue`) -/

/-- The per-default candidate loop of `resolvedValue`: half-and-add-adj for
defaults of another type, the post adjustment, and the extra encumbrance
penalty for the skill named Karate; the best candidate wins, floored at
zero. -/
def computeParryBlockLevel (ctx : Ctx) (w : Weapon) (pc : Entity)
    (baseDefaultType : List Char) (s : AggState) : Int × AggState :=
  let (preAdj, s1) := skillLevelBaseAdjustment ctx w pc s
  let postAdj := skillLevelPostAdjustment w pc
  let adjC := fxpFrom 3 + (if baseDefaultType = parryID then pc.parryBonus else pc.blockBonus)
  let best := w.defaults.foldl (fun acc d =>
    if d.level = fxpMin then acc
    else
      let l1 := d.level + preAdj
      let l2 := if baseDefaultType ≠ d.dtype then fxpTrunc (fxpDiv l1 (fxpFrom 2) + adjC) else l1
      let l3 := l2 + postAdj
      let l4 := if d.dtype = skillID && d.name = karateName then l3 + encumbrancePenalty pc
                else l3
      if acc < l4 then l4 else acc) fxpMin
  (max best 0, s1)

/-- The line splitting of `bufio.Scanner`: newline-separated segments, with a
final empty segment after a trailing newline not reported. -/
def splitLinesAux : List Char → List Char → List (List Char)
  | [], cur => [cur.reverse]
  | '\n' :: rest, cur => cur.reverse :: splitLinesAux rest []
  | c :: rest, cur => splitLinesAux rest (c :: cur)

/-- Split an input into scanner lines. -/
def splitLines (s : List Char) : List (List Char) :=
  if s = [] then []
  else if s.getLast? = some '\n' then (splitLinesAux s []).dropLast
  else splitLinesAux s []

/-- The leading modifier parse of a `resolvedValue` line: skip spaces, an
optional sign, then a digit run; yields the sign, the digit value and the
unconsumed remainder of the line, or nothing when no digit was found. -/
def parseLeadingMod (line : List Char) : Option (Bool × Nat × List Char) :=
  let afterSpaces := line.dropWhile (· = ' ')
  if afterSpaces = [] then none
  else
    let (neg, rest1) :=
      match afterSpaces with
      | '-' :: r => (true, r)
      | '+' :: r => (false, r)
      | r => (false, r)
    let digits := rest1.takeWhile (fun c => isDigitCh c)
    if digits = [] then none
    else some (neg, digitsToNat digits, rest1.dropWhile (fun c => isDigitCh c))

/-- The accumulator of the `resolvedValue` line loop: the output buffer, the
memoized skill level (`fxp.Max` until the first line with a modifier), and
the threaded aggregation state. -/
structure RVState where
  buffer : List Char
  memo : Int
  graph : AggState

/-- One line of `resolvedValue`: emit the line separator when the buffer is
non-empty, then re-emit the line with its leading modifier token replaced by
the truncated numeric result. -/
def resolvedValueLine (ctx : Ctx) (w : Weapon) (pc : Entity)
    (baseDefaultType : List Char) (st : RVState) (line : List Char) : RVState :=
  let buf := if st.buffer ≠ [] then st.buffer ++ ['\n'] else st.buffer
  match parseLeadingMod line with
  | none => { st with buffer := buf ++ line }
  | some (neg, m, remainder) =>
    let (memo', g') :=
      if st.memo = fxpMaxC then computeParryBlockLevel ctx w pc baseDefaultType st.graph
      else (st.memo, st.graph)
    let mi : Int := if neg then -(m : Int) else (m : Int)
    let num := fxpIntString (fxpTrunc (memo' + fxpFrom mi))
    { buffer := buf ++ num ++ remainder, memo := memo', graph := g' }

/-- `Weapon.resolvedValue`: the input unchanged without a PC; otherwise the
line-by-line rewrite. -/
def Weapon.resolvedValue (ctx : Ctx) (w : Weapon) (input baseDefaultType : List Char)
    (s : AggState) : List Char × AggState :=
  match w.PC with
  | none => (input, s)
  | some pc =>
    let fin := (splitLines input).foldl (resolvedValueLine ctx w pc baseDefaultType)
      ⟨[], fxpMaxC, s⟩
    (fin.buffer, fin.graph)

/-- `Weapon.ResolvedParry`. -/
def Weapon.ResolvedParry (ctx : Ctx) (w : Weapon) (s : AggState) : List Char × AggState :=
  w.resolvedValue ctx w.parry parryID s

/-- `Weapon.ResolvedBlock`. -/
def Weapon.ResolvedBlock (ctx : Ctx) (w : Weapon) (s : AggState) : List Char × AggState :=
  w.resolvedValue ctx w.block blockID s

/-! ## Range resolution -/

/-- The digit/decimal-point scan after an `x` multiplier token: digits with
at most one embedded decimal point, as in the Go loop. -/
def scanNum : List Char → Bool → List Char × List Char
  | [], _ => ([], [])
  | c :: rest, decimal =>
    if isDigitCh c then
      let (t, r) := scanNum rest decimal
      (c :: t, r)
    else if !decimal && c = '.' then
      let (t, r) := scanNum rest true
      (c :: t, r)
    else ([], c :: rest)

/-- `fxp.FromString` on the tokens the range scanner produces (digit runs
with at most one decimal point): integer part times the scale plus the first
four fractional digits, zero-padded; an empty token is a parse error. -/
def fxpFromString (s : List Char) : Option Int :=
  if s = [] then none
  else
    let intPart := s.takeWhile (· ≠ '.')
    let rest := s.dropWhile (· ≠ '.')
    let fracPart := (rest.drop 1).take 4
    let fracLen := fracPart.length
    some ((digitsToNat intPart : Int) * fxpDP
      + (digitsToNat fracPart : Int) * ((10 : Int) ^ (4 - fracLen)))

/-- `Weapon.resolveRange`: replace the first `x`-multiplier token (the `x`,
an optional following space, and the scanned number) with the number
multiplied by the effective strength, truncated; any failure to find or
parse a number leaves the string unchanged. -/
def resolveRange (inRange : List Char) (st : Int) : List Char :=
  let pre := inRange.takeWhile (· ≠ 'x')
  match inRange.dropWhile (· ≠ 'x') with
  | [] => inRange
  | _ :: afterX =>
    let rest := if afterX.head? = some ' ' then afterX.tail else afterX
    if rest = [] then inRange
    else
      let (tok, suffix) := scanNum rest false
      if tok = [] then inRange
      else
        match fxpFromString tok with
        | none => inRange
        | some v => pre ++ fxpIntString (fxpTrunc (fxpMul v st)) ++ suffix

/-- The fixed-point loop of `Weapon.ResolvedRange`, with explicit fuel; the
count of `x` bytes strictly decreases on every productive pass, so a fuel of
one more than that count always reaches the fixed point (proved below). -/
def resolveRangeLoop (s : List Char) (st : Int) : Nat → List Char
  | 0 => s
  | n + 1 =>
    let t := resolveRange s st
    if t = s then s else resolveRangeLoop t st n

/-- The count of `x` bytes in a range string, the loop's termination
measure. -/
def countX (s : List Char) : Nat := s.count 'x'

/-- The effective strength used by `Weapon.ResolvedRange`: the owner's rated
strength, falling back to the PC's throwing strength. -/
def Weapon.rangeEffectiveST (w : Weapon) : Int :=
  let st : Int :=
    match w.owner with
    | some o => o.ratedStrength
    | none => 0
  if st = 0 then
    match w.PC with
    | some pc => pc.throwingStrength
    | none => 0
  else st

/-- `Weapon.ResolvedRange`: the stored range unchanged when the effective
strength is zero; otherwise the fixed point of `resolveRange`. -/
def Weapon.ResolvedRange (w : Weapon) : List Char :=
  let st := w.rangeEffectiveST
  if st = 0 then w.range
  else resolveRangeLoop w.range st (countX w.range + 1)

/-! ## Attribute prerequisite (`attribute_prereq.go`) -/

/-- `HasText`. -/
def HasText (has : Bool) : List Char :=
  if has then "Has".toList else "Does not have".toList

/-- The fields of `AttributePrereq` that `Satisfied` consults. -/
structure AttributePrereq where
  has : Bool
  combinedWith : List Char
  qualifierCriteria : NumericCriteria
  which : List Char

/-- The tooltip text `AttributePrereq.Satisfied` writes when unsatisfied. -/
def AttributePrereq.explanation (p : AttributePrereq) (e : Entity)
    (pfx : List Char) : List Char :=
  pfx ++ HasText p.has ++ [' '] ++ e.resolveAttributeName p.which
    ++ (if p.combinedWith ≠ [] then '+' :: e.resolveAttributeName p.combinedWith else [])
    ++ " which ".toList ++ p.qualifierCriteria.describe

/-- `AttributePrereq.Satisfied`: match the criteria against the attribute's
current value (plus the combined-with attribute when set), invert when `Has`
is false, and explain into a non-nil tooltip buffer exactly when
unsatisfied. -/
def AttributePrereq.Satisfied (p : AttributePrereq) (e : Entity)
    (tooltip : Option (List Char)) (pfx : List Char) :
    Bool × Option (List Char) :=
  let value := e.resolveAttributeCurrent p.which
    + (if p.combinedWith ≠ [] then e.resolveAttributeCurrent p.combinedWith else 0)
  let satisfied0 := p.qualifierCriteria.matches value
  let satisfied := if p.has then satisfied0 else !satisfied0
  let tooltip' :=
    match tooltip with
    | none => none
    | some buf => if satisfied then some buf else some (buf ++ p.explanation e pfx)
  (satisfied, tooltip')

/-! ## Specification-side characterizations

Named re-expressions of the best-of passes, used to state the claims; each is
proved equal to (or characterizing) the corresponding source definition in
the theorems below. -/

/-- The best-of fold shared by the skill level and parry/block passes: the
maximum of `g` over the applicable defaults (those not at the `fxp.Min`
sentinel), starting from the sentinel. -/
def bestOverDefaults (l : List SkillDefault) (g : SkillDefault → Int) : Int :=
  l.foldl (fun acc d =>
    if d.level ≠ fxpMin then (if acc < g d then g d else acc) else acc) fxpMin

/-- The per-candidate level of the parry/block best-of pass, as the source
computes it (including the hard-coded extra encumbrance penalty for the
skill named Karate). -/
def parryBlockCandidate (w : Weapon) (pc : Entity) (baseDefaultType : List Char)
    (preAdj : Int) (d : SkillDefault) : Int :=
  let adjC := fxpFrom 3 + (if baseDefaultType = parryID then pc.parryBonus else pc.blockBonus)
  let l1 := d.level + preAdj
  let l2 := if baseDefaultType ≠ d.dtype then fxpTrunc (fxpDiv l1 (fxpFrom 2) + adjC) else l1
  let l3 := l2 + skillLevelPostAdjustment w pc
  if d.dtype = skillID && d.name = karateName then l3 + encumbrancePenalty pc else l3

/-- The same candidate level without the Karate special case, following the
spec's words; comparing it with `parryBlockCandidate` isolates exactly when
the extra encumbrance penalty is layered in. -/
def parryBlockCandidatePlain (w : Weapon) (pc : Entity) (baseDefaultType : List Char)
    (preAdj : Int) (d : SkillDefault) : Int :=
  let adjC := fxpFrom 3 + (if baseDefaultType = parryID then pc.parryBonus else pc.blockBonus)
  let l1 := d.level + preAdj
  let l2 := if baseDefaultType ≠ d.dtype then fxpTrunc (fxpDiv l1 (fxpFrom 2) + adjC) else l1
  l2 + skillLevelPostAdjustment w pc

/-- The sub-owner frame of the aggregation pass: every back reference is
either untouched or points at a traversed modifier whose feature list
carries a bonus feature (of any bonus kind) with that very identity. -/
def SubOwnerFrame (w : Weapon) (s0 s1 : AggState) : Prop :=
  ∀ j, s1.subOwners j = s0.subOwners j ∨
    ∃ m ∈ flattenMods w.ownerTraitOrEquipmentModifiers,
      ∃ f ∈ m.features, f.bonusId = some j ∧ s1.subOwners j = some m.mid

/-! ## Example configurations -/

/-- A criteria value matching anything. -/
def anyCriteria : StringCriteria := ⟨.anyString, []⟩

/-- A filler bonus for unused identities. -/
def zeroBonus : WeaponBonus :=
  ⟨.otherFeatureType, .invalidSelection, anyCriteria, anyCriteria, anyCriteria, 0, false, 0⟩

/-- The initial aggregation state: all levels zero, no sub-owners, empty set
and tooltip, nothing logged. -/
def emptyAgg : AggState := ⟨fun _ => 0, fun _ => none, [], [], 0⟩

/-- A context with no interesting bonuses. -/
def egCtx : Ctx := ⟨fun _ => zeroBonus⟩

/-- The C1 example entity: a PC with Strength (striking strength) 10 and no
bonus sources. -/
def egEntityC1 : Entity :=
  ⟨.pc, fxpFrom 10, 0, 0, 0, 0, [], [], [], fun _ => 0, fun s => s⟩

/-- The C1 example owner: a plain equipment item. -/
def egOwnerC1 : WeaponOwner :=
  ⟨some egEntityC1, "Broadsword".toList, 0, [], [], .equipmentOwner, []⟩

/-- The C1 example weapon: minimum ST 12, one default resolving to level
14. -/
def egWeaponC1 : Weapon :=
  ⟨.melee, false, [], "1".toList, [], [], [], 0, 0, fxpFrom 12,
   [⟨skillID, "Broadsword".toList, [], true, fxpFrom 14⟩], some egOwnerC1⟩

/-- A +1 this-weapon damage bonus (criteria match anything). -/
def egDamageBonus : WeaponBonus :=
  ⟨.weaponBonus, .thisWeapon, anyCriteria, anyCriteria, anyCriteria, fxpFrom 1, false, 0⟩

/-- A context where every identity is the +1 this-weapon damage bonus. -/
def egCtxDamage : Ctx := ⟨fun _ => egDamageBonus⟩

/-- A bare PC with no bonus sources, used by the aggregation examples. -/
def egPlainPC : Entity := ⟨.pc, 0, 0, 0, 0, 0, [], [], [], fun _ => 0, fun s => s⟩

/-- The C2 example owner: equipment with two modifiers, each carrying its own
+1 this-weapon damage bonus (identities 2 and 3). -/
def egOwnerC2 : WeaponOwner :=
  ⟨some egPlainPC, "Rifle".toList, 0, [], [], .equipmentOwner,
   [.mk 10 [.weaponBonusRef 2] [], .mk 11 [.weaponBonusRef 3] []]⟩

/-- The C2 example weapon owned by `egOwnerC2`. -/
def egWeaponC2 : Weapon :=
  ⟨.ranged, false, [], [], [], [], [], 0, 0, 0, [], some egOwnerC2⟩

/-- The dual-path owner: the single bonus instance with identity 1 is
reachable through both modifiers. -/
def egOwnerC2b : WeaponOwner :=
  ⟨some egPlainPC, "Rifle".toList, 0, [], [], .equipmentOwner,
   [.mk 10 [.weaponBonusRef 1] [], .mk 11 [.weaponBonusRef 1] []]⟩

/-- The weapon owned by the dual-path owner. -/
def egWeaponC2b : Weapon :=
  ⟨.ranged, false, [], [], [], [], [], 0, 0, 0, [], some egOwnerC2b⟩

/-- A skill bonus feature value (criteria match anything). -/
def egSkillBonus : SkillBonus :=
  ⟨.thisWeaponSkill, anyCriteria, anyCriteria, anyCriteria, fxpFrom 1⟩

/-- The C6 skill-bonus owner: equipment with one modifier (identity 12)
carrying a skill bonus feature with identity 5. -/
def egOwnerC6 : WeaponOwner :=
  ⟨some egPlainPC, "Rapier".toList, 0, [], [], .equipmentOwner,
   [.mk 12 [.skillBonusFeature 5 egSkillBonus] []]⟩

/-- The weapon owned by `egOwnerC6`. -/
def egWeaponC6 : Weapon :=
  ⟨.melee, false, [], [], [], [], [], 0, 0, 0, [], some egOwnerC6⟩

/-- The C3 counterexample weapon: not a jet, no owner (hence no PC), with a
stored weapon accuracy of -5. -/
def egWeaponC3 : Weapon :=
  ⟨.ranged, false, [], [], [], [], [], -50000, 0, 0, [], none⟩

/-- The C4 example entity: a PC at encumbrance penalty -2. -/
def egEntityC4 : Entity :=
  ⟨.pc, 0, 0, -20000, 0, 0, [], [], [], fun _ => 0, fun s => s⟩

/-- The C4 example owner (a skill, so no modifier traversal). -/
def egOwnerC4 : WeaponOwner :=
  ⟨some egEntityC4, "Karate".toList, 0, [], [], .otherOwner, []⟩

/-- The C4 example weapon: melee, block string `0`, one default on the
skill named Karate at level 12. -/
def egWeaponC4 : Weapon :=
  ⟨.melee, false, [], "1".toList, [], "0".toList, [], 0, 0, 0,
   [⟨skillID, "Karate".toList, [], true, fxpFrom 12⟩], some egOwnerC4⟩

/-- The same configuration with a zero encumbrance penalty; the two resolved
block values differ exactly by the Karate special case. -/
def egEntityC4b : Entity := egPlainPC

/-- The owner of the zero-encumbrance variant. -/
def egOwnerC4b : WeaponOwner :=
  ⟨some egEntityC4b, "Karate".toList, 0, [], [], .otherOwner, []⟩

/-- The zero-encumbrance variant of the C4 example weapon. -/
def egWeaponC4b : Weapon :=
  ⟨.melee, false, [], "1".toList, [], "0".toList, [], 0, 0, 0,
   [⟨skillID, "Karate".toList, [], true, fxpFrom 12⟩], some egOwnerC4b⟩

/-- The C5 example owner: rated strength 11. -/
def egOwnerC5 : WeaponOwner :=
  ⟨some egPlainPC, "Crossbow".toList, fxpFrom 11, [], [], .equipmentOwner, []⟩

/-- The C5 example weapon: stored minimum ST 7 under a rated-strength-11
owner. -/
def egWeaponC5 : Weapon :=
  ⟨.ranged, false, [], [], [], [], [], 0, 0, fxpFrom 7, [], some egOwnerC5⟩

/-- The C7 example weapon: range `10/x3`, wielded by a PC with throwing
strength 8. -/
def egWeaponC7 : Weapon :=
  ⟨.ranged, false, [], [], [], [], "10/x3".toList, 0, 0, 0, [],
   some ⟨some ⟨.pc, 0, fxpFrom 8, 0, 0, 0, [], [], [], fun _ => 0, fun s => s⟩,
         [], 0, [], [], .otherOwner, []⟩⟩

/-- The C7 example weapon with the already-resolved range string. -/
def egWeaponC7b : Weapon :=
  ⟨.ranged, false, [], [], [], [], "10/24".toList, 0, 0, 0, [],
   some ⟨some ⟨.pc, 0, fxpFrom 8, 0, 0, 0, [], [], [], fun _ => 0, fun s => s⟩,
         [], 0, [], [], .otherOwner, []⟩⟩

/-- The C8 counterexample context: identity 1 is a damage bonus with the
with-required-skill selection type. -/
def egCtxC8 : Ctx :=
  ⟨fun _ => ⟨.weaponBonus, .withRequiredSkill, anyCriteria, anyCriteria, anyCriteria,
    fxpFrom 1, false, 0⟩⟩

/-- The C10 example weapon: owned by an entity that is not a PC. -/
def egWeaponC10 : Weapon :=
  ⟨.melee, false, [], "1".toList, "-2".toList, "+1".toList, [], 0, 0, 0, [],
   some ⟨some ⟨.otherEntity, 0, 0, 0, 0, 0, [], [], [], fun _ => 0, fun s => s⟩,
         "Halberd".toList, 0, [], [], .equipmentOwner, []⟩⟩

/-- The C9 example prerequisite: Strength at least 12, `Has` true. -/
def egPrereqC9 : AttributePrereq :=
  ⟨true, [], ⟨.atLeastNumber, fxpFrom 12⟩, "st".toList⟩

/-- The C9 example entity: every attribute resolves to 10. -/
def egEntityC9 : Entity :=
  ⟨.pc, 0, 0, 0, 0, 0, [], [], [], fun _ => fxpFrom 10, fun s => s⟩

/-- The set/tooltip coupling invariant of the aggregation pass: the set has
no duplicate identities, and the tooltip entries past the caller's prefix
list exactly the set, in insertion order. -/
def SetTooltipInv (t0 : List Nat) (s : AggState) : Prop :=
  s.set.Nodup ∧ s.tooltip.map Prod.fst = t0 ++ s.set

/-! ## Infrastructure lemmas -/

theorem foldl_preserve_mem {α σ : Type _} (P : σ → Prop) (step : σ → α → σ)
    (l : List α) (h : ∀ a ∈ l, ∀ s, P s → P (step s a)) :
    ∀ s, P s → P (l.foldl step s) := by
  induction l with
  | nil => intro s hs; exact hs
  | cons a l ih =>
    intro s hs
    exact ih (fun b hb s hs => h b (List.mem_cons_of_mem _ hb) s hs) _
      (h a (List.mem_cons_self _ _) s hs)

theorem foldl_fn_congr {α β : Type _} {f g : β → α → β} (h : ∀ a b, f a b = g a b)
    (l : List α) (a : β) : l.foldl f a = l.foldl g a := by
  induction l generalizing a with
  | nil => rfl
  | cons x l ih => simp only [List.foldl_cons, h, ih]

@[simp] theorem setLevel_set (s : AggState) (id : Nat) (v : Int) :
    (setLevel s id v).set = s.set := rfl

@[simp] theorem setLevel_tooltip (s : AggState) (id : Nat) (v : Int) :
    (setLevel s id v).tooltip = s.tooltip := rfl

@[simp] theorem setLevel_log (s : AggState) (id : Nat) (v : Int) :
    (setLevel s id v).log = s.log := rfl

@[simp] theorem setLevel_subOwners (s : AggState) (id : Nat) (v : Int) :
    (setLevel s id v).subOwners = s.subOwners := rfl

theorem setLevel_levels (s : AggState) (id : Nat) (v : Int) :
    (setLevel s id v).levels = fun j => if j = id then v else s.levels j := rfl

@[simp] theorem addBonusToSet_levels (ctx : Ctx) (id : Nat) (s : AggState) :
    (addBonusToSet ctx id s).levels = s.levels := by
  unfold addBonusToSet; split <;> rfl

@[simp] theorem addBonusToSet_subOwners (ctx : Ctx) (id : Nat) (s : AggState) :
    (addBonusToSet ctx id s).subOwners = s.subOwners := by
  unfold addBonusToSet; split <;> rfl

@[simp] theorem addBonusToSet_log (ctx : Ctx) (id : Nat) (s : AggState) :
    (addBonusToSet ctx id s).log = s.log := by
  unfold addBonusToSet; split <;> rfl

theorem levels_restore (s s2 : AggState) (id : Nat) (t : Int)
    (h : s2.levels = (setLevel s id t).levels) :
    (setLevel s2 id (s.levels id)).levels = s.levels := by
  funext j
  by_cases hj : j = id
  · subst hj; simp [setLevel]
  · simp [setLevel, hj, congrFun h j]

theorem addBonusToSet_inv (ctx : Ctx) (id : Nat) (t0 : List Nat) (s : AggState)
    (h : SetTooltipInv t0 s) : SetTooltipInv t0 (addBonusToSet ctx id s) := by
  unfold addBonusToSet
  split
  · exact h
  · rename_i hc
    refine ⟨?_, ?_⟩
    · have hid : id ∉ s.set := fun hmem => hc (List.elem_eq_true_of_mem hmem)
      simpa [List.nodup_append] using ⟨h.1, hid⟩
    · simp only [List.map_append, h.2, List.map_cons, List.map_nil, List.append_assoc]

theorem extractSelect_levels (ctx : Ctx) (w : Weapon) (id : Nat) (s : AggState) :
    (extractSelect ctx w id s).levels = s.levels := by
  unfold extractSelect
  split
  · rfl
  · split <;> simp
  · split <;> simp
  · rfl

theorem extractSelect_subOwners (ctx : Ctx) (w : Weapon) (id : Nat) (s : AggState) :
    (extractSelect ctx w id s).subOwners = s.subOwners := by
  unfold extractSelect
  split
  · rfl
  · split <;> simp
  · split <;> simp
  · rfl

theorem extractSelect_inv (ctx : Ctx) (w : Weapon) (id : Nat) (t0 : List Nat)
    (s : AggState) (h : SetTooltipInv t0 s) :
    SetTooltipInv t0 (extractSelect ctx w id s) := by
  unfold extractSelect
  split
  · exact h
  · split
    · exact addBonusToSet_inv _ _ _ _ h
    · exact h
  · split
    · exact addBonusToSet_inv _ _ _ _ h
    · exact h
  · exact h

theorem extract_levels (ctx : Ctx) (w : Weapon) (f : Feature) (dc : Int)
    (allowed : List FeatureType) (s : AggState) :
    (extractWeaponBonus ctx w f dc allowed s).levels = s.levels := by
  cases f with
  | weaponBonusRef id =>
    simp only [extractWeaponBonus]
    split
    · exact levels_restore s _ id _ (extractSelect_levels _ _ _ _)
    · rfl
  | skillBonusFeature i sb => rfl
  | otherBonusFeature i ft => rfl
  | otherFeature ft => rfl

theorem extract_subOwners (ctx : Ctx) (w : Weapon) (f : Feature) (dc : Int)
    (allowed : List FeatureType) (s : AggState) :
    (extractWeaponBonus ctx w f dc allowed s).subOwners = s.subOwners := by
  cases f with
  | weaponBonusRef id =>
    simp only [extractWeaponBonus]
    split
    · simp [extractSelect_subOwners]
    · rfl
  | skillBonusFeature i sb => rfl
  | otherBonusFeature i ft => rfl
  | otherFeature ft => rfl

theorem extract_inv (ctx : Ctx) (w : Weapon) (f : Feature) (dc : Int)
    (allowed : List FeatureType) (t0 : List Nat) (s : AggState)
    (h : SetTooltipInv t0 s) :
    SetTooltipInv t0 (extractWeaponBonus ctx w f dc allowed s) := by
  cases f with
  | weaponBonusRef id =>
    simp only [extractWeaponBonus]
    split
    · have h2 : SetTooltipInv t0 (extractSelect ctx w id
          (setLevel s id (if (ctx.bonuses id).ftype = FeatureType.weaponBonus then dc
            else (ctx.bonuses id).derivedLevel))) :=
        extractSelect_inv _ _ _ _ _ h
      exact h2
    · exact h
  | skillBonusFeature i sb => exact h
  | otherBonusFeature i ft => exact h
  | otherFeature ft => exact h

theorem foldl_levels_eq {α : Type _} (step : AggState → α → AggState)
    (h : ∀ a s, (step s a).levels = s.levels) (l : List α) (s : AggState) :
    (l.foldl step s).levels = s.levels := by
  induction l generalizing s with
  | nil => rfl
  | cons a l ih => rw [List.foldl_cons, ih, h]

theorem foldl_subOwners_eq {α : Type _} (step : AggState → α → AggState)
    (h : ∀ a s, (step s a).subOwners = s.subOwners) (l : List α) (s : AggState) :
    (l.foldl step s).subOwners = s.subOwners := by
  induction l generalizing s with
  | nil => rfl
  | cons a l ih => rw [List.foldl_cons, ih, h]

theorem adder_levels (ctx : Ctx) (ids : List Nat) (nq sq : List Char)
    (tags : List (List Char)) (dc : Int) (allowed : List FeatureType) (s : AggState) :
    (addWeaponBonusesFromList ctx ids nq sq tags dc allowed s).levels = s.levels := by
  unfold addWeaponBonusesFromList
  apply foldl_levels_eq
  intro a s'
  dsimp only
  split
  · rw [levels_restore s' _ a _ (addBonusToSet_levels _ _ _)]
  · rfl

theorem adder_subOwners (ctx : Ctx) (ids : List Nat) (nq sq : List Char)
    (tags : List (List Char)) (dc : Int) (allowed : List FeatureType) (s : AggState) :
    (addWeaponBonusesFromList ctx ids nq sq tags dc allowed s).subOwners = s.subOwners := by
  unfold addWeaponBonusesFromList
  apply foldl_subOwners_eq
  intro a s'
  dsimp only
  split
  · simp
  · rfl

theorem adder_inv (ctx : Ctx) (ids : List Nat) (nq sq : List Char)
    (tags : List (List Char)) (dc : Int) (allowed : List FeatureType) (t0 : List Nat)
    (s : AggState) (h : SetTooltipInv t0 s) :
    SetTooltipInv t0 (addWeaponBonusesFromList ctx ids nq sq tags dc allowed s) := by
  apply foldl_preserve_mem (SetTooltipInv t0)
  · intro a _ s' hs'
    dsimp only
    split
    · exact addBonusToSet_inv _ _ _ _ hs'
    · exact hs'
  · exact h

theorem featureFold_levels (ctx : Ctx) (w : Weapon) (dc : Int)
    (allowed : List FeatureType) (l : List Feature) (s : AggState) :
    (l.foldl (fun acc f => extractWeaponBonus ctx w f dc allowed acc) s).levels
      = s.levels := by
  apply foldl_levels_eq
  intro f s'
  exact extract_levels _ _ _ _ _ _

theorem featureFold_subOwners (ctx : Ctx) (w : Weapon) (dc : Int)
    (allowed : List FeatureType) (l : List Feature) (s : AggState) :
    (l.foldl (fun acc f => extractWeaponBonus ctx w f dc allowed acc) s).subOwners
      = s.subOwners := by
  apply foldl_subOwners_eq
  intro f s'
  exact extract_subOwners _ _ _ _ _ _

theorem featureFold_inv (ctx : Ctx) (w : Weapon) (dc : Int)
    (allowed : List FeatureType) (l : List Feature) (t0 : List Nat) (s : AggState)
    (h : SetTooltipInv t0 s) :
    SetTooltipInv t0
      (l.foldl (fun acc f => extractWeaponBonus ctx w f dc allowed acc) s) := by
  apply foldl_preserve_mem (SetTooltipInv t0)
  · intro f _ s' hs'
    exact extract_inv _ _ _ _ _ _ _ hs'
  · exact h

theorem modStep_levels (ctx : Ctx) (w : Weapon) (dc : Int)
    (allowed : List FeatureType) (m : Modifier) (s : AggState) :
    (modStep ctx w dc allowed s m).levels = s.levels := by
  unfold modStep
  apply foldl_levels_eq
  intro f s'
  dsimp only
  cases f <;> rw [extract_levels] <;> rfl

theorem modStep_inv (ctx : Ctx) (w : Weapon) (dc : Int)
    (allowed : List FeatureType) (m : Modifier) (t0 : List Nat) (s : AggState)
    (h : SetTooltipInv t0 s) : SetTooltipInv t0 (modStep ctx w dc allowed s m) := by
  unfold modStep
  apply foldl_preserve_mem (SetTooltipInv t0)
  · intro f _ s' hs'
    dsimp only
    cases f with
    | weaponBonusRef id => exact extract_inv _ _ _ _ _ _ _ hs'
    | skillBonusFeature i sb => exact extract_inv _ _ _ _ _ _ _ hs'
    | otherBonusFeature i ft => exact extract_inv _ _ _ _ _ _ _ hs'
    | otherFeature ft => exact extract_inv _ _ _ _ _ _ _ hs'
  · exact h

theorem modFold_levels (ctx : Ctx) (w : Weapon) (dc : Int)
    (allowed : List FeatureType) (l : List Modifier) (s : AggState) :
    (l.foldl (modStep ctx w dc allowed) s).levels = s.levels := by
  apply foldl_levels_eq
  intro m s'
  exact modStep_levels _ _ _ _ _ _

theorem modFold_inv (ctx : Ctx) (w : Weapon) (dc : Int)
    (allowed : List FeatureType) (l : List Modifier) (t0 : List Nat) (s : AggState)
    (h : SetTooltipInv t0 s) : SetTooltipInv t0 (l.foldl (modStep ctx w dc allowed) s) := by
  apply foldl_preserve_mem (SetTooltipInv t0)
  · intro m _ s' hs'
    exact modStep_inv _ _ _ _ _ _ _ hs'
  · exact h

theorem collect_levels (ctx : Ctx) (w : Weapon) (dcN : Int)
    (allowed : List FeatureType) (s : AggState) :
    (collectWeaponBonuses ctx w dcN allowed s).levels = s.levels := by
  unfold collectWeaponBonuses
  cases hpc : w.PC with
  | none => rfl
  | some pc =>
    dsimp only
    rw [modFold_levels, featureFold_levels]
    cases hbd : pickBestDefault w.defaults with
    | none => rw [adder_levels]
    | some d => rw [adder_levels, adder_levels]

theorem collect_inv (ctx : Ctx) (w : Weapon) (dcN : Int)
    (allowed : List FeatureType) (t0 : List Nat) (s : AggState)
    (h : SetTooltipInv t0 s) :
    SetTooltipInv t0 (collectWeaponBonuses ctx w dcN allowed s) := by
  unfold collectWeaponBonuses
  cases hpc : w.PC with
  | none => exact h
  | some pc =>
    dsimp only
    apply modFold_inv
    apply featureFold_inv
    apply adder_inv
    cases hbd : pickBestDefault w.defaults with
    | none => exact h
    | some d => exact adder_inv _ _ _ _ _ _ _ _ _ h

theorem modStep_frame (ctx : Ctx) (w : Weapon) (dc : Int)
    (allowed : List FeatureType) (s0 : AggState) (m : Modifier)
    (hm : m ∈ flattenMods w.ownerTraitOrEquipmentModifiers) (s : AggState)
    (h : SubOwnerFrame w s0 s) : SubOwnerFrame w s0 (modStep ctx w dc allowed s m) := by
  unfold modStep
  apply foldl_preserve_mem (SubOwnerFrame w s0) _ m.features
  · intro f hf s' hs'
    dsimp only
    intro j
    rw [extract_subOwners]
    cases hb : f.bonusId with
    | some id =>
      simp only [hb]
      by_cases hj : j = id
      · subst hj
        exact Or.inr ⟨m, hm, f, hf, hb, by simp⟩
      · simpa [hj] using hs' j
    | none =>
      simp only [hb]
      exact hs' j
  · exact h

theorem collect_frame (ctx : Ctx) (w : Weapon) (dcN : Int)
    (allowed : List FeatureType) (s : AggState) :
    SubOwnerFrame w s (collectWeaponBonuses ctx w dcN allowed s) := by
  unfold collectWeaponBonuses
  cases hpc : w.PC with
  | none => exact fun j => Or.inl rfl
  | some pc =>
    dsimp only
    apply foldl_preserve_mem (SubOwnerFrame w s)
    · intro m hm s' hs'
      exact modStep_frame _ _ _ _ _ _ hm _ hs'
    · intro j
      rw [featureFold_subOwners, adder_subOwners]
      cases hbd : pickBestDefault w.defaults with
      | none => exact Or.inl rfl
      | some d => rw [adder_subOwners]; exact Or.inl rfl

/-! ## Best-of fold lemmas -/

theorem bestFold_le_init (l : List SkillDefault) (g : SkillDefault → Int) :
    ∀ init : Int, init ≤ l.foldl (fun acc d =>
      if d.level ≠ fxpMin then (if acc < g d then g d else acc) else acc) init := by
  induction l with
  | nil => intro init; exact le_refl _
  | cons a l ih =>
    intro init
    refine le_trans ?_ (ih _)
    dsimp only
    split
    · split
      · omega
      · exact le_refl _
    · exact le_refl _

theorem bestFold_mem_le (l : List SkillDefault) (g : SkillDefault → Int)
    (d : SkillDefault) (hd : d ∈ l) (hna : d.level ≠ fxpMin) :
    ∀ init : Int, g d ≤ l.foldl (fun acc d =>
      if d.level ≠ fxpMin then (if acc < g d then g d else acc) else acc) init := by
  induction l with
  | nil => cases hd
  | cons a l ih =>
    intro init
    rcases List.mem_cons.mp hd with h | h
    · subst h
      refine le_trans ?_ (bestFold_le_init l g _)
      dsimp only
      rw [if_pos hna]
      split
      · exact le_refl _
      · omega
    · exact ih h _

theorem bestFold_attained (l : List SkillDefault) (g : SkillDefault → Int) :
    ∀ init : Int,
      (l.foldl (fun acc d =>
        if d.level ≠ fxpMin then (if acc < g d then g d else acc) else acc) init = init)
      ∨ ∃ d ∈ l, d.level ≠ fxpMin ∧ l.foldl (fun acc d =>
          if d.level ≠ fxpMin then (if acc < g d then g d else acc) else acc) init = g d := by
  induction l with
  | nil => intro init; exact Or.inl rfl
  | cons a l ih =>
    intro init
    rw [List.foldl_cons]
    rcases ih (if a.level ≠ fxpMin then (if init < g a then g a else init) else init) with h | ⟨d, hdl, hna, heq⟩
    · rw [h]
      by_cases hna : a.level ≠ fxpMin
      · rw [if_pos hna]
        by_cases hlt : init < g a
        · rw [if_pos hlt]
          exact Or.inr ⟨a, List.mem_cons_self _ _, hna, rfl⟩
        · rw [if_neg hlt]
          exact Or.inl rfl
      · rw [if_neg hna]
        exact Or.inl rfl
    · exact Or.inr ⟨d, List.mem_cons_of_mem _ hdl, hna, heq⟩

theorem bestFold_all_na (l : List SkillDefault) (g : SkillDefault → Int)
    (h : ∀ d ∈ l, d.level = fxpMin) :
    ∀ init : Int, l.foldl (fun acc d =>
      if d.level ≠ fxpMin then (if acc < g d then g d else acc) else acc) init = init := by
  induction l with
  | nil => intro init; rfl
  | cons a l ih =>
    intro init
    rw [List.foldl_cons, if_neg (by simpa using h a (List.mem_cons_self _ _)),
      ih (fun d hd => h d (List.mem_cons_of_mem _ hd))]

/-! ## Claim C1: weapon skill level -/

/-- **C1**: for a weapon wielded by a PC, `SkillLevel` is the highest level
over all applicable skill defaults after adding the adjustment; the base
adjustment subtracts exactly the positive part of the minimum-ST shortfall
(resolved minimum strength minus striking strength) before the bonus terms;
if every default resolves to the not-applicable sentinel the result is zero;
the result is never negative; and in the concrete example (Strength 10,
required minimum strength 12, one default at level 14, no bonuses) the
resolved skill level is 12. -/
theorem C1_skill_level (ctx : Ctx) (w : Weapon) (s : AggState) (pc : Entity)
    (hpc : w.PC = some pc) :
    (w.SkillLevel ctx s).1 = max 0 (bestOverDefaults w.defaults
      (fun d => d.level + ((skillLevelBaseAdjustment ctx w pc s).1
        + skillLevelPostAdjustment w pc)))
    ∧ 0 ≤ (w.SkillLevel ctx s).1
    ∧ ((∀ d ∈ w.defaults, d.level = fxpMin) → (w.SkillLevel ctx s).1 = 0)
    ∧ (∀ d ∈ w.defaults, d.level ≠ fxpMin →
        d.level + ((skillLevelBaseAdjustment ctx w pc s).1
          + skillLevelPostAdjustment w pc) ≤ (w.SkillLevel ctx s).1)
    ∧ (0 < (w.SkillLevel ctx s).1 → ∃ d ∈ w.defaults, d.level ≠ fxpMin ∧
        (w.SkillLevel ctx s).1 = d.level + ((skillLevelBaseAdjustment ctx w pc s).1
          + skillLevelPostAdjustment w pc))
    ∧ (skillLevelBaseAdjustment ctx w pc s).1
        = -(max ((w.ResolvedMinimumStrength ctx s).1 - pc.strikingStrength) 0)
          + ((namedWeaponSkillBonusesFor pc w.string w.usage w.ownerTags).foldl
              (fun acc sb => acc + sb.adjustedAmount) 0)
          + (w.ownerFeatures.foldl
              (fun acc f => acc + extractSkillBonusForThisWeapon w f) 0)
          + ((flattenMods w.ownerTraitOrEquipmentModifiers).foldl
              (fun acc m => acc + m.features.foldl
                (fun a f => a + extractSkillBonusForThisWeapon w f) 0) 0)
    ∧ (egWeaponC1.SkillLevel egCtx emptyAgg).1 = fxpFrom 12 := by
  have hfxpMin : fxpMin ≤ (0 : Int) := by norm_num [fxpMin]
  have hmain : (w.SkillLevel ctx s).1 = max 0 (bestOverDefaults w.defaults
      (fun d => d.level + ((skillLevelBaseAdjustment ctx w pc s).1
        + skillLevelPostAdjustment w pc))) := by
    have hrw : w.SkillLevel ctx s =
        (if bestOverDefaults w.defaults
            (fun d => d.level + ((skillLevelBaseAdjustment ctx w pc s).1
              + skillLevelPostAdjustment w pc)) = fxpMin
         then ((0 : Int), (skillLevelBaseAdjustment ctx w pc s).2)
         else (max (bestOverDefaults w.defaults
            (fun d => d.level + ((skillLevelBaseAdjustment ctx w pc s).1
              + skillLevelPostAdjustment w pc))) 0,
            (skillLevelBaseAdjustment ctx w pc s).2)) := by
      simp only [Weapon.SkillLevel, hpc]
      rcases skillLevelBaseAdjustment ctx w pc s with ⟨ba, s1⟩
      rfl
    rw [hrw, apply_ite Prod.fst]
    split
    · rename_i hb
      rw [hb, max_eq_left hfxpMin]
    · exact max_comm _ _
  refine ⟨hmain, ?_, ?_, ?_, ?_, ?_, ?_⟩
  · rw [hmain]; exact le_max_left _ _
  · intro hall
    rw [hmain, bestOverDefaults, bestFold_all_na _ _ hall, max_eq_left hfxpMin]
  · intro d hd hna
    rw [hmain]
    exact le_trans (bestFold_mem_le _ _ d hd hna fxpMin) (le_max_right _ _)
  · intro hposr
    rw [hmain] at hposr ⊢
    rcases bestFold_attained w.defaults
      (fun d => d.level + ((skillLevelBaseAdjustment ctx w pc s).1
        + skillLevelPostAdjustment w pc)) fxpMin with h | ⟨d, hdl, hna, heq⟩
    · exfalso
      rw [bestOverDefaults, h, max_eq_left hfxpMin] at hposr
      omega
    · refine ⟨d, hdl, hna, ?_⟩
      rw [bestOverDefaults, heq] at hposr ⊢
      have hgd : (0 : Int) < d.level + ((skillLevelBaseAdjustment ctx w pc s).1
          + skillLevelPostAdjustment w pc) := by
        by_contra hle
        rw [max_eq_left (by omega)] at hposr
        omega
      rw [max_eq_right (by omega)]
  · have hsplit : ∀ x : Int, (if 0 < x then -x else 0) = -(max x 0) := by
      intro x
      split <;> rename_i hcmp
      · rw [max_eq_left (by omega)]
      · rw [max_eq_right (by omega)]
        omega
    simp only [skillLevelBaseAdjustment]
    rcases hrms : w.ResolvedMinimumStrength ctx s with ⟨rms, s2⟩
    simp only [hrms, Prod.fst]
    rw [hsplit]
  · decide

/-- **C1** witness: the theorem applied to the Strength-10 example
configuration, whose PC is the example entity. -/
theorem C1_skill_level_witness :
    (egWeaponC1.SkillLevel egCtx emptyAgg).1 = fxpFrom 12 := by
  exact (C1_skill_level egCtx egWeaponC1 emptyAgg egEntityC1 rfl).2.2.2.2.2.2

/-! ## Claim C2: deduplication by instance identity -/

/-- **C2**: in `collectWeaponBonuses`, a bonus instance reachable via two
distinct traversal paths appears exactly once in the returned collection and
its tooltip line is appended exactly once (the result has no duplicate
identities and the tooltip entries list exactly the result, in discovery
order); concretely, one +1 this-weapon bonus instance reachable through two
modifiers of the same equipment is collected once with one tooltip line,
while two distinct equal-valued +1 instances on two modifiers are both kept,
contribute +2 in total, and produce two tooltip lines. -/
theorem C2_dedup (ctx : Ctx) (w : Weapon) (dcN : Int) (allowed : List FeatureType)
    (s : AggState) (hset : s.set = []) (htt : s.tooltip = []) :
    (collectWeaponBonuses ctx w dcN allowed s).set.Nodup
    ∧ (collectWeaponBonuses ctx w dcN allowed s).tooltip.map Prod.fst
        = (collectWeaponBonuses ctx w dcN allowed s).set
    ∧ (collectWeaponBonuses egCtxDamage egWeaponC2b 1
        [FeatureType.weaponBonus] emptyAgg).set = [1]
    ∧ (collectWeaponBonuses egCtxDamage egWeaponC2b 1
        [FeatureType.weaponBonus] emptyAgg).tooltip.length = 1
    ∧ (collectWeaponBonuses egCtxDamage egWeaponC2 1
        [FeatureType.weaponBonus] emptyAgg).set = [2, 3]
    ∧ ((collectWeaponBonuses egCtxDamage egWeaponC2 1
          [FeatureType.weaponBonus] emptyAgg).set.foldl
        (fun acc id => acc + adjustedAmountAt egCtxDamage id
          (collectWeaponBonuses egCtxDamage egWeaponC2 1
            [FeatureType.weaponBonus] emptyAgg).levels) 0) = fxpFrom 2
    ∧ (collectWeaponBonuses egCtxDamage egWeaponC2 1
        [FeatureType.weaponBonus] emptyAgg).tooltip
        = [(2, fxpFrom 1), (3, fxpFrom 1)] := by
  have hinv : SetTooltipInv [] s := by
    constructor
    · rw [hset]; exact List.nodup_nil
    · rw [htt, hset]; rfl
  have h := collect_inv ctx w dcN allowed [] s hinv
  exact ⟨h.1, by simpa using h.2, by decide, by decide, by decide, by decide, by decide⟩

/-- **C2** witness: the theorem applied at the concrete two-instance
configuration, where the initial set and tooltip are empty. -/
theorem C2_dedup_witness :
    (collectWeaponBonuses egCtxDamage egWeaponC2 1
      [FeatureType.weaponBonus] emptyAgg).set.Nodup
    ∧ (collectWeaponBonuses egCtxDamage egWeaponC2 1
        [FeatureType.weaponBonus] emptyAgg).tooltip.map Prod.fst
      = (collectWeaponBonuses egCtxDamage egWeaponC2 1
          [FeatureType.weaponBonus] emptyAgg).set := by
  have h := C2_dedup egCtxDamage egWeaponC2 1 [FeatureType.weaponBonus] emptyAgg rfl rfl
  exact ⟨h.1, h.2.1⟩

/-! ## Claim C6: the aggregation pass and the owner graph -/

/-- **C6** (counterexample): the claim asserts the aggregation pass reverts
every write to the owner graph except transient level writes; but
`collectWeaponBonuses` calls `SetSubOwner` on every feature of a traversed
modifier that implements the `Bonus` interface — not only weapon bonuses —
and those sub-owner back references keep their new values after the call:
the weapon bonus with identity 1 (sub-owner initially absent) is left
pointing at modifier 11, and the *skill* bonus with identity 5 is left
pointing at modifier 12. -/
theorem C6_counterexample :
    emptyAgg.subOwners 1 = none
    ∧ (collectWeaponBonuses egCtxDamage egWeaponC2b 1
        [FeatureType.weaponBonus] emptyAgg).subOwners 1 = some 11
    ∧ ¬((collectWeaponBonuses egCtxDamage egWeaponC2b 1
        [FeatureType.weaponBonus] emptyAgg).subOwners 1 = emptyAgg.subOwners 1)
    ∧ emptyAgg.subOwners 5 = none
    ∧ (collectWeaponBonuses egCtxDamage egWeaponC6 1
        [FeatureType.weaponBonus] emptyAgg).subOwners 5 = some 12
    ∧ ¬((collectWeaponBonuses egCtxDamage egWeaponC6 1
        [FeatureType.weaponBonus] emptyAgg).subOwners 5 = emptyAgg.subOwners 5) := by
  refine ⟨rfl, by decide, by decide, rfl, by decide, by decide⟩

/-- **C6** (amended): after `collectWeaponBonuses` returns, every bonus
object's level field equals the value it had before the call (the transient
per-bonus level writes are reverted); the only other mutation of the owner
graph is that the sub-owner back reference of any bonus feature — a weapon
bonus, a skill bonus, or any other bonus kind — carried by a traversed
trait/equipment modifier may be (re)assigned to that owning modifier, and
such writes are not reverted.  The frame also covers the concrete skill
bonus: its sub-owner ends up at its owning modifier. -/
theorem C6_level_restore (ctx : Ctx) (w : Weapon) (dcN : Int)
    (allowed : List FeatureType) (s : AggState) :
    (collectWeaponBonuses ctx w dcN allowed s).levels = s.levels
    ∧ SubOwnerFrame w s (collectWeaponBonuses ctx w dcN allowed s)
    ∧ (collectWeaponBonuses egCtxDamage egWeaponC6 1
        [FeatureType.weaponBonus] emptyAgg).subOwners 5 = some 12
    ∧ (collectWeaponBonuses egCtxDamage egWeaponC6 1
        [FeatureType.weaponBonus] emptyAgg).levels 5 = emptyAgg.levels 5 :=
  ⟨collect_levels ctx w dcN allowed s, collect_frame ctx w dcN allowed s,
   by decide, by decide⟩

/-! ## Claim C4: the Karate special case in parry/block resolution -/

theorem computeParryBlockLevel_eq (ctx : Ctx) (w : Weapon) (pc : Entity)
    (btype : List Char) (s : AggState) :
    computeParryBlockLevel ctx w pc btype s
      = (max (bestOverDefaults w.defaults
          (parryBlockCandidate w pc btype (skillLevelBaseAdjustment ctx w pc s).1)) 0,
         (skillLevelBaseAdjustment ctx w pc s).2) := by
  simp only [computeParryBlockLevel]
  rcases hba : skillLevelBaseAdjustment ctx w pc s with ⟨ba, s1⟩
  dsimp only
  congr 2
  rw [bestOverDefaults]
  apply foldl_fn_congr
  intro acc d
  by_cases hd : d.level = fxpMin
  · simp [hd]
  · simp only [if_neg hd, hd, ne_eq, not_false_eq_true, if_pos]
    rfl

/-- **C4** (counterexample): the claim restricts the extra Karate
encumbrance penalty to Parry resolution; but resolving the *Block* field of
a melee weapon with a Karate skill default changes with the encumbrance
penalty: at encumbrance penalty -2 the block string `0` resolves to `7`,
while the identical configuration at penalty 0 resolves to `9`. -/
theorem C4_counterexample :
    (egWeaponC4.ResolvedBlock egCtx emptyAgg).1 = "7".toList
    ∧ (egWeaponC4b.ResolvedBlock egCtx emptyAgg).1 = "9".toList
    ∧ egEntityC4.encumbrancePenaltyValue = -20000
    ∧ egEntityC4b.encumbrancePenaltyValue = 0
    ∧ ¬((egWeaponC4.ResolvedBlock egCtx emptyAgg).1 = "9".toList) := by
  refine ⟨by decide, by decide, rfl, rfl, by decide⟩

/-- **C4** (amended): during parry *and* block string resolution, the best-of
comparison adds the extra encumbrance penalty to a candidate default exactly
when that default is the skill named Karate — regardless of whether the
field being resolved is Parry or Block — and only to that candidate's level,
not to the other candidates. -/
theorem C4_karate_encumbrance (ctx : Ctx) (w : Weapon) (pc : Entity)
    (btype : List Char) (s : AggState) :
    computeParryBlockLevel ctx w pc btype s
      = (max (bestOverDefaults w.defaults
          (parryBlockCandidate w pc btype (skillLevelBaseAdjustment ctx w pc s).1)) 0,
         (skillLevelBaseAdjustment ctx w pc s).2)
    ∧ (∀ d : SkillDefault, d.dtype = skillID → d.name = karateName →
        parryBlockCandidate w pc btype (skillLevelBaseAdjustment ctx w pc s).1 d
          = parryBlockCandidatePlain w pc btype (skillLevelBaseAdjustment ctx w pc s).1 d
            + encumbrancePenalty pc)
    ∧ (∀ d : SkillDefault, d.dtype ≠ skillID ∨ d.name ≠ karateName →
        parryBlockCandidate w pc btype (skillLevelBaseAdjustment ctx w pc s).1 d
          = parryBlockCandidatePlain w pc btype (skillLevelBaseAdjustment ctx w pc s).1 d) := by
  refine ⟨computeParryBlockLevel_eq ctx w pc btype s, ?_, ?_⟩
  · intro d hd hn
    simp [parryBlockCandidate, parryBlockCandidatePlain, hd, hn]
  · intro d hdn
    rcases hdn with hdn | hdn <;>
      simp [parryBlockCandidate, parryBlockCandidatePlain, hdn]

/-- **C4** witness: the amended theorem applied to the Block field of the
concrete Karate configuration; the resulting block level includes the -2
encumbrance penalty. -/
theorem C4_karate_encumbrance_witness :
    computeParryBlockLevel egCtx egWeaponC4 egEntityC4 blockID emptyAgg
      = (max (bestOverDefaults egWeaponC4.defaults
          (parryBlockCandidate egWeaponC4 egEntityC4 blockID
            (skillLevelBaseAdjustment egCtx egWeaponC4 egEntityC4 emptyAgg).1)) 0,
         (skillLevelBaseAdjustment egCtx egWeaponC4 egEntityC4 emptyAgg).2)
    ∧ (computeParryBlockLevel egCtx egWeaponC4 egEntityC4 blockID emptyAgg).1 = 70000 := by
  exact ⟨(C4_karate_encumbrance egCtx egWeaponC4 egEntityC4 blockID emptyAgg).1, by decide⟩

/-! ## Claim C3: resolved accuracy -/

/-- **C3** (counterexample): the claim asserts every weapon without the jet
flag has non-negative resolved accuracy components; but `ResolvedAccuracy`
returns the stored values unclamped when no PC entity exists, so a non-jet
weapon with no owner and a stored weapon accuracy of -5 resolves to -5. -/
theorem C3_counterexample :
    egWeaponC3.jet = false
    ∧ (egWeaponC3.ResolvedAccuracy egCtx emptyAgg).1 = (-50000, 0)
    ∧ ¬(0 ≤ ((egWeaponC3.ResolvedAccuracy egCtx emptyAgg).1).1) := by
  refine ⟨rfl, rfl, by decide⟩

/-- **C3** (amended): for a jet weapon both `ResolvedAccuracy` and
`WeaponAccuracy.Resolve` yield zero for weapon and scope accuracy regardless
of stored values and bonuses; for a non-jet weapon `WeaponAccuracy.Resolve`'s
components are always non-negative, while `ResolvedAccuracy`'s components are
non-negative whenever a PC entity exists and are the stored values returned
unchanged (possibly negative) when none exists. -/
theorem C3_accuracy (ctx : Ctx) (w : Weapon) (wa : WeaponAccuracy) (s : AggState) :
    (w.jet = true →
      w.ResolvedAccuracy ctx s = ((0, 0), s) ∧ (wa.Resolve ctx w s).1 = ⟨0, 0⟩)
    ∧ (w.jet = false →
        (0 ≤ (wa.Resolve ctx w s).1.base ∧ 0 ≤ (wa.Resolve ctx w s).1.scope)
        ∧ (∀ pc, w.PC = some pc →
            0 ≤ ((w.ResolvedAccuracy ctx s).1).1 ∧ 0 ≤ ((w.ResolvedAccuracy ctx s).1).2)
        ∧ (w.PC = none → w.ResolvedAccuracy ctx s = ((w.weaponAcc, w.scopeAcc), s))) := by
  constructor
  · intro h
    constructor
    · simp [Weapon.ResolvedAccuracy, h]
    · simp [WeaponAccuracy.Resolve, Weapon.ResolveBoolFlag, h]
  · intro h
    refine ⟨?_, ?_, ?_⟩
    · simp only [WeaponAccuracy.Resolve, Weapon.ResolveBoolFlag, h]
      cases hpc : w.PC <;>
        simp [hpc, WeaponAccuracy.Validate, le_max_right]
    · intro pc hpc
      simp only [Weapon.ResolvedAccuracy, h]
      simp [hpc, le_max_right]
    · intro hpc
      simp only [Weapon.ResolvedAccuracy, h]
      simp [hpc]

/-- **C3** witness: the amended theorem applied to a concrete jet weapon and
to the concrete non-jet, PC-less counterexample weapon. -/
theorem C3_accuracy_witness :
    (Weapon.ResolvedAccuracy egCtx
        ⟨.ranged, true, [], [], [], [], [], -50000, 70000, 0, [], none⟩ emptyAgg)
      = ((0, 0), emptyAgg)
    ∧ egWeaponC3.ResolvedAccuracy egCtx emptyAgg
      = ((egWeaponC3.weaponAcc, egWeaponC3.scopeAcc), emptyAgg) := by
  constructor
  · exact ((C3_accuracy egCtx
      ⟨.ranged, true, [], [], [], [], [], -50000, 70000, 0, [], none⟩
      ⟨0, 0⟩ emptyAgg).1 rfl).1
  · exact ((C3_accuracy egCtx egWeaponC3 ⟨0, 0⟩ emptyAgg).2 rfl).2.2 rfl

/-! ## Claim C5: resolved minimum strength -/

/-- **C5**: when the owner reports a positive rated strength,
`ResolvedMinimumStrength` returns exactly that rated strength, with the
stored minimum ST, all bonuses and the aggregation state untouched; when the
rated strength is not positive (or there is no owner), it returns the stored
minimum ST plus the collected minimum-ST bonuses, floored at zero. -/
theorem C5_resolved_min_strength (ctx : Ctx) (w : Weapon) (s : AggState) :
    (∀ o, w.owner = some o → 0 < o.ratedStrength →
      w.ResolvedMinimumStrength ctx s = (o.ratedStrength, s))
    ∧ ((∀ o, w.owner = some o → o.ratedStrength ≤ 0) →
      w.ResolvedMinimumStrength ctx s =
        (let s' := collectWeaponBonuses ctx w 1 [FeatureType.weaponMinSTBonus] (freshSet s)
         (max (s'.set.foldl (fun acc id => acc + adjustedAmountAt ctx id s'.levels) w.minST) 0,
          s'))) := by
  constructor
  · intro o ho hpos
    have hmax : max o.ratedStrength 0 = o.ratedStrength := max_eq_left (le_of_lt hpos)
    simp only [Weapon.ResolvedMinimumStrength, ho, hmax]
    rw [if_pos (by omega)]
  · intro hnp
    cases ho : w.owner with
    | none =>
      simp only [Weapon.ResolvedMinimumStrength, ho]
      rw [if_neg (by omega : ¬((0 : Int) ≠ 0))]
    | some o =>
      have hle : o.ratedStrength ≤ 0 := hnp o ho
      have hmax : max o.ratedStrength 0 = 0 := max_eq_right hle
      simp only [Weapon.ResolvedMinimumStrength, ho, hmax]
      rw [if_neg (by omega : ¬((0 : Int) ≠ 0))]

/-- **C5** witness: a weapon whose owner has rated strength 11 and stored
minimum ST 7 resolves to minimum strength 11. -/
theorem C5_resolved_min_strength_witness :
    egWeaponC5.ResolvedMinimumStrength egCtx emptyAgg = (fxpFrom 11, emptyAgg) := by
  exact (C5_resolved_min_strength egCtx egWeaponC5 emptyAgg).1 egOwnerC5 rfl (by decide)

/-! ## Claim C8: selection-type handling in extractWeaponBonus -/

/-- **C8** (counterexample): the claim asserts a with-required-skill bonus
reached by the direct-item traversal is logged as a diagnostic guard; in the
code that switch arm is empty, so nothing is logged (and nothing is added):
on a concrete allowed with-required-skill bonus the log stays at zero. -/
theorem C8_counterexample :
    [FeatureType.weaponBonus].contains (egCtxC8.bonuses 1).ftype = true
    ∧ (egCtxC8.bonuses 1).selectionType = WeaponSelectionType.withRequiredSkill
    ∧ (extractWeaponBonus egCtxC8 egWeaponC2 (.weaponBonusRef 1) 10000
        [FeatureType.weaponBonus] emptyAgg).log = 0
    ∧ (extractWeaponBonus egCtxC8 egWeaponC2 (.weaponBonusRef 1) 10000
        [FeatureType.weaponBonus] emptyAgg).set = []
    ∧ (extractWeaponBonus egCtxC8 egWeaponC2 (.weaponBonusRef 1) 10000
        [FeatureType.weaponBonus] emptyAgg).tooltip = [] := by
  refine ⟨rfl, rfl, rfl, rfl, rfl⟩

/-- **C8** (amended): during direct-item traversal a with-required-skill
bonus is never added to the result set and is skipped silently (no
diagnostic is logged), while a bonus with an out-of-range selection type is
logged as a diagnostic and skipped; in both cases the set and tooltip are
unaffected, the transient level write is reverted, and no error is returned
to the caller (the traversal is a total function into the state). -/
theorem C8_selection_handling (ctx : Ctx) (w : Weapon) (id : Nat) (dc : Int)
    (allowed : List FeatureType) (s : AggState) :
    ((ctx.bonuses id).selectionType = WeaponSelectionType.withRequiredSkill →
      (extractWeaponBonus ctx w (.weaponBonusRef id) dc allowed s).set = s.set
      ∧ (extractWeaponBonus ctx w (.weaponBonusRef id) dc allowed s).tooltip = s.tooltip
      ∧ (extractWeaponBonus ctx w (.weaponBonusRef id) dc allowed s).log = s.log
      ∧ (extractWeaponBonus ctx w (.weaponBonusRef id) dc allowed s).levels = s.levels)
    ∧ ((ctx.bonuses id).selectionType = WeaponSelectionType.invalidSelection →
      allowed.contains (ctx.bonuses id).ftype = true →
      (extractWeaponBonus ctx w (.weaponBonusRef id) dc allowed s).log = s.log + 1
      ∧ (extractWeaponBonus ctx w (.weaponBonusRef id) dc allowed s).set = s.set
      ∧ (extractWeaponBonus ctx w (.weaponBonusRef id) dc allowed s).tooltip = s.tooltip
      ∧ (extractWeaponBonus ctx w (.weaponBonusRef id) dc allowed s).levels = s.levels) := by
  constructor
  · intro hsel
    refine ⟨?_, ?_, ?_, extract_levels _ _ _ _ _ _⟩ <;>
      · simp only [extractWeaponBonus]
        split
        · simp [extractSelect, hsel]
        · rfl
  · intro hsel hall
    refine ⟨?_, ?_, ?_, extract_levels _ _ _ _ _ _⟩ <;>
      · simp only [extractWeaponBonus, hall, if_pos]
        simp [extractSelect, hsel]

/-- **C8** witness: the amended theorem applied to the concrete
with-required-skill configuration. -/
theorem C8_selection_handling_witness :
    (extractWeaponBonus egCtxC8 egWeaponC2 (.weaponBonusRef 1) 10000
      [FeatureType.weaponBonus] emptyAgg).log = emptyAgg.log := by
  exact ((C8_selection_handling egCtxC8 egWeaponC2 1 10000
    [FeatureType.weaponBonus] emptyAgg).1 rfl).2.2.1

/-! ## Claim C9: attribute prerequisite satisfaction -/

/-- **C9**: `AttributePrereq.Satisfied` matches the qualifier criteria
against the entity's current value of the named attribute (plus the
combined-with attribute when that field is non-empty), inverts the result
when `Has` is false, and writes an explanation into the tooltip buffer
exactly when the final result is unsatisfied and a buffer is present. -/
theorem C9_attribute_prereq (p : AttributePrereq) (e : Entity) (buf pfx : List Char) :
    (p.Satisfied e (some buf) pfx).1 =
      (let value := e.resolveAttributeCurrent p.which +
        (if p.combinedWith ≠ [] then e.resolveAttributeCurrent p.combinedWith else 0)
       if p.has then p.qualifierCriteria.matches value
       else !(p.qualifierCriteria.matches value))
    ∧ (p.Satisfied e none pfx).2 = none
    ∧ ((p.Satisfied e (some buf) pfx).1 = true →
        (p.Satisfied e (some buf) pfx).2 = some buf)
    ∧ ((p.Satisfied e (some buf) pfx).1 = false →
        (p.Satisfied e (some buf) pfx).2 = some (buf ++ p.explanation e pfx)
        ∧ buf ++ p.explanation e pfx ≠ buf) := by
  refine ⟨rfl, rfl, ?_, ?_⟩
  · intro hsat
    simp only [AttributePrereq.Satisfied] at hsat ⊢
    rw [hsat]
    simp
  · intro hsat
    simp only [AttributePrereq.Satisfied] at hsat ⊢
    rw [hsat]
    refine ⟨by simp, ?_⟩
    intro heq
    have hlen := congrArg List.length heq
    simp only [List.length_append] at hlen
    have hexp : 0 < (p.explanation e pfx).length := by
      simp only [AttributePrereq.explanation, HasText, List.length_append]
      cases p.has <;> simp
    omega

/-- **C9** witness: Strength-at-least-12 against an entity whose Strength is
10 is unsatisfied and appends its explanation to the buffer. -/
theorem C9_attribute_prereq_witness :
    (egPrereqC9.Satisfied egEntityC9 (some []) []).2
      = some (egPrereqC9.explanation egEntityC9 []) := by
  exact ((C9_attribute_prereq egPrereqC9 egEntityC9 [] []).2.2.2 (by decide)).1

/-! ## Claim C7: range resolution fixed point -/

theorem digitChar_ne_x (d : Nat) (hd : d < 10) :
    Char.ofNat ('0'.toNat + d) ≠ 'x' := by
  interval_cases d <;> decide

theorem natToDigitsAux_ne_x (fuel : Nat) :
    ∀ n, ∀ c ∈ natToDigitsAux fuel n, c ≠ 'x' := by
  induction fuel with
  | zero => intro n c hc; cases hc
  | succ f ih =>
    intro n c hc
    simp only [natToDigitsAux] at hc
    split at hc
    · rename_i hn
      rw [List.mem_singleton] at hc
      subst hc
      exact digitChar_ne_x n hn
    · rcases List.mem_append.mp hc with hc | hc
      · exact ih _ c hc
      · rw [List.mem_singleton] at hc
        subst hc
        exact digitChar_ne_x _ (Nat.mod_lt _ (by omega))

theorem count_x_fxpIntString (v : Int) : (fxpIntString v).count 'x' = 0 := by
  rw [List.count_eq_zero]
  intro hmem
  simp only [fxpIntString, intToString] at hmem
  split at hmem
  · rcases List.mem_cons.mp hmem with hmem | hmem
    · cases hmem
    · exact natToDigitsAux_ne_x _ _ _ hmem rfl
  · exact natToDigitsAux_ne_x _ _ _ hmem rfl

theorem scanNum_split : ∀ (l : List Char) (d : Bool),
    (scanNum l d).1 ++ (scanNum l d).2 = l
    ∧ ∀ c ∈ (scanNum l d).1, isDigitCh c = true ∨ c = '.' := by
  intro l
  induction l with
  | nil => intro d; exact ⟨rfl, by intro c hc; cases hc⟩
  | cons a rest ih =>
    intro d
    simp only [scanNum]
    by_cases hdig : isDigitCh a = true
    · rcases hsn : scanNum rest d with ⟨t, r⟩
      have hrec := ih d
      rw [hsn] at hrec
      simp only [hdig, if_pos, hsn]
      constructor
      · simpa using hrec.1
      · intro c hc
        rcases List.mem_cons.mp hc with hc | hc
        · subst hc; exact Or.inl hdig
        · exact hrec.2 c hc
    · rw [if_neg hdig]
      by_cases hdot : (!d && a = '.') = true
      · rcases hsn : scanNum rest true with ⟨t, r⟩
        have hrec := ih true
        rw [hsn] at hrec
        simp only [hdot, if_pos, hsn]
        constructor
        · simpa using hrec.1
        · intro c hc
          rcases List.mem_cons.mp hc with hc | hc
          · subst hc
            exact Or.inr (by simpa using (Bool.and_elim_right hdot))
          · exact hrec.2 c hc
      · rw [if_neg hdot]
        exact ⟨rfl, by intro c hc; cases hc⟩

theorem dropWhile_head_false {p : Char → Bool} :
    ∀ (l : List Char) (c : Char) (rest : List Char),
      l.dropWhile p = c :: rest → p c = false := by
  intro l
  induction l with
  | nil => intro c rest h; cases h
  | cons a l ih =>
    intro c rest h
    rw [List.dropWhile_cons] at h
    split at h
    · exact ih _ _ h
    · rename_i hpa
      cases h
      simpa using hpa

theorem count_x_takeWhile (l : List Char) :
    (l.takeWhile (· ≠ 'x')).count 'x' = 0 := by
  rw [List.count_eq_zero]
  intro hmem
  have := List.mem_takeWhile_imp hmem
  simp at this

/-- Every productive pass of `resolveRange` removes the `x` byte it rewrote
and inserts only digit/sign bytes, so the count of `x` bytes strictly
decreases. -/
theorem resolveRange_countX (s : List Char) (st : Int) :
    resolveRange s st = s ∨ countX (resolveRange s st) < countX s := by
  unfold resolveRange countX
  cases hdw : s.dropWhile (· ≠ 'x') with
  | nil => exact Or.inl rfl
  | cons cx afterX =>
    have hcx : cx = 'x' := by
      have := dropWhile_head_false _ _ _ hdw
      simpa using this
    have hsplit : s.takeWhile (· ≠ 'x') ++ (cx :: afterX) = s := by
      rw [← hdw]
      exact List.takeWhile_append_dropWhile _ _
    have htw : (s.takeWhile (· ≠ 'x')).count 'x' = 0 := count_x_takeWhile s
    have hcountS : s.count 'x' = afterX.count 'x' + 1 := by
      conv_lhs => rw [← hsplit]
      rw [List.count_append, hcx, List.count_cons_self, htw]
      omega
    set rest := if afterX.head? = some ' ' then afterX.tail else afterX with hrest
    have hcountRest : rest.count 'x' ≤ afterX.count 'x' := by
      rw [hrest]
      split
      · cases afterX with
        | nil => simp
        | cons a t =>
          simp only [List.tail_cons]
          rw [List.count_cons]
          omega
      · exact le_refl _
    dsimp only
    by_cases hre : rest = []
    · rw [if_pos hre]
      exact Or.inl rfl
    · rw [if_neg hre]
      rcases hsn : scanNum rest false with ⟨tok, sfx⟩
      have hs := scanNum_split rest false
      rw [hsn] at hs
      dsimp only at hs
      by_cases htok : tok = []
      · rw [if_pos htok]
        exact Or.inl rfl
      · rw [if_neg htok]
        cases hfs : fxpFromString tok with
        | none => exact Or.inl rfl
        | some v =>
          refine Or.inr ?_
          dsimp only
          have htokx : tok.count 'x' = 0 := by
            rw [List.count_eq_zero]
            intro hcmem
            rcases hs.2 'x' hcmem with hbad | hbad
            · exact absurd hbad (by decide)
            · exact absurd hbad (by decide)
          have hsfx : sfx.count 'x' ≤ rest.count 'x' := by
            conv_rhs => rw [← hs.1]
            rw [List.count_append]
            omega
          have hnum : (fxpIntString (fxpTrunc (fxpMul v st))).count 'x' = 0 :=
            count_x_fxpIntString _
          rw [List.count_append, List.count_append, htw, hnum]
          omega

/-- The fixed-point loop reaches a fixed point of `resolveRange` whenever the
fuel exceeds the count of `x` bytes. -/
theorem resolveRangeLoop_fix (st : Int) :
    ∀ (fuel : Nat) (s : List Char), countX s < fuel →
      resolveRange (resolveRangeLoop s st fuel) st = resolveRangeLoop s st fuel := by
  intro fuel
  induction fuel with
  | zero => intro s h; omega
  | succ f ih =>
    intro s hcount
    simp only [resolveRangeLoop]
    by_cases ht : resolveRange s st = s
    · rw [if_pos ht]
      exact ht
    · rw [if_neg ht]
      apply ih
      rcases resolveRange_countX s st with h | h
      · exact absurd h ht
      · omega

/-- **C7**: `ResolvedRange`'s fixed-point loop terminates for every range
string (within one pass more than the count of `x` bytes), its result is a
fixed point of `resolveRange` and is returned unchanged by another
resolution pass; a string with no `x` token is left unchanged by a single
pass; and the range field `10/x3` under effective strength 8 resolves to
`10/24`, which then resolves to itself. -/
theorem C7_range_fixed_point (s : List Char) (st : Int) :
    (countX s = 0 → resolveRange s st = s)
    ∧ resolveRange (resolveRangeLoop s st (countX s + 1)) st
        = resolveRangeLoop s st (countX s + 1)
    ∧ resolveRangeLoop (resolveRangeLoop s st (countX s + 1)) st
        (countX (resolveRangeLoop s st (countX s + 1)) + 1)
        = resolveRangeLoop s st (countX s + 1)
    ∧ egWeaponC7.ResolvedRange = "10/24".toList
    ∧ egWeaponC7b.ResolvedRange = "10/24".toList
    ∧ egWeaponC7b.range = egWeaponC7.ResolvedRange := by
  have hfix := resolveRangeLoop_fix st (countX s + 1) s (by omega)
  refine ⟨?_, hfix, ?_, by decide, by decide, by decide⟩
  · intro hc
    unfold resolveRange
    have hnil : s.dropWhile (· ≠ 'x') = [] := by
      rw [List.dropWhile_eq_nil_iff]
      intro a ha
      rw [countX, List.count_eq_zero] at hc
      simp only [ne_eq, decide_eq_true_eq]
      intro heq
      exact hc (heq ▸ ha)
    rw [hnil]
  · generalize hr : resolveRangeLoop s st (countX s + 1) = r at hfix ⊢
    simp only [resolveRangeLoop]
    rw [if_pos hfix]



/-- **C7** witness: a single pass leaves the already-resolved string
`10/24` unchanged. -/
theorem C7_range_fixed_point_witness :
    resolveRange "10/24".toList (fxpFrom 8) = "10/24".toList := by
  exact (C7_range_fixed_point "10/24".toList (fxpFrom 8)).1 (by decide)

/-! ## Claim C10: behavior without a PC entity -/

/-- **C10**: for a weapon whose owner chain yields no PC entity (no owner,
an owner without an owning entity, or an entity not of PC type),
`SkillLevel` returns zero and `ResolvedParry`/`ResolvedBlock` return the
stored parry/block text completely unchanged, with no state mutation. -/
theorem C10_no_pc (ctx : Ctx) (w : Weapon) (s : AggState)
    (h : w.owner = none
      ∨ ∃ o, w.owner = some o ∧ (o.owningEntity = none
        ∨ ∃ e, o.owningEntity = some e ∧ e.etype ≠ EntityType.pc)) :
    w.PC = none
    ∧ w.SkillLevel ctx s = (0, s)
    ∧ w.ResolvedParry ctx s = (w.parry, s)
    ∧ w.ResolvedBlock ctx s = (w.block, s) := by
  have hpc : w.PC = none := by
    rcases h with h | ⟨o, ho, h2⟩
    · simp [Weapon.PC, Weapon.entity, h]
    · rcases h2 with h2 | ⟨e, he, hne⟩
      · simp [Weapon.PC, Weapon.entity, ho, h2]
      · simp [Weapon.PC, Weapon.entity, ho, he, hne]
  refine ⟨hpc, ?_, ?_, ?_⟩
  · simp [Weapon.SkillLevel, hpc]
  · simp [Weapon.ResolvedParry, Weapon.resolvedValue, hpc]
  · simp [Weapon.ResolvedBlock, Weapon.resolvedValue, hpc]

/-- **C10** witness: a weapon owned by a non-PC entity keeps its parry and
block strings verbatim and reports skill level zero. -/
theorem C10_no_pc_witness :
    egWeaponC10.SkillLevel egCtx emptyAgg = (0, emptyAgg)
    ∧ egWeaponC10.ResolvedParry egCtx emptyAgg = ("-2".toList, emptyAgg)
    ∧ egWeaponC10.ResolvedBlock egCtx emptyAgg = ("+1".toList, emptyAgg) := by
  have h := C10_no_pc egCtx egWeaponC10 emptyAgg
    (Or.inr ⟨_, rfl, Or.inr ⟨_, rfl, by decide⟩⟩)
  exact ⟨h.2.1, h.2.2.1, h.2.2.2⟩

end Gurps

